import Mathlib

/-!
# UI_CORE: the event bus and the base UI element

A shallow embedding of `UI/UIElement_DLL/UIElement.h` and `UIElement.cpp`.

Modelling conventions
* `float` is embedded twice. `UI_2D_Element` takes float values as exact ordered values
  (`ℚ`: finite values, exact order, exact `+`); it serves the statements about exact
  ordered values. `Binary32.UI_2D_Element` takes them as IEEE 754 binary32 values (`F32`:
  NaN, the two infinities, finite values; comparisons false on NaN; `+` rounded to nearest,
  ties to even, FLT_EVAL_METHOD 0); it serves the statements in which rounding, an
  infinity or NaN can be observed. `Binary32.ofExact` relates the two: the setters agree on
  finite values, and `HitTest` agrees whenever `x + width` and `y + height` are exact.
  The sign of a zero, which no comparison or sum of the element can observe, is not kept.
* `int` values are integers (`Int`); no arithmetic of the bus can overflow, since
  `count` only grows while `count < capacity`.
* A `const char*` is `Option CStr`: `none` is `nullptr`, `some s` points at the bytes of a
  NUL-terminated string (the bytes before the terminator, none of them zero).
* An `IEventHandler*` is `Option Handler`: `none` is `nullptr`, `some h` is the handler
  object `h`.  `OnEvent` is a pure virtual of the host, so a call of it is recorded
  in a trace of `Call`s.
* Operations that can leave defined behaviour return `Except Fault _`.
-/

namespace UICore

/-! ## Strings, handlers, faults -/

/-- Bytes of a NUL-terminated string, terminator excluded. -/
abbrev CStr := { l : List Nat // 0 ∉ l }

/-- The empty string `""`. -/
def CStr.empty : CStr := ⟨[], by simp⟩

/-- Identity of a handler object (an `IEventHandler` of the host). -/
abbrev Handler := Nat

/-- One `handler->OnEvent(name)` call: the receiver and the pointer passed. -/
structure Call where
  handler : Handler
  name : Option CStr
deriving DecidableEq

/-- Ways an operation can leave defined behaviour. -/
inductive Fault where
  | badArrayLength
  | outOfBounds
  | uninitialised
  | nullDeref
  | fuel
deriving DecidableEq

instance instDecidableEqExcept {ε α : Type} [DecidableEq ε] [DecidableEq α] :
    DecidableEq (Except ε α)
  | .ok a, .ok b => if h : a = b then isTrue (by rw [h]) else isFalse (fun e => h (by injection e))
  | .error a, .error b =>
    if h : a = b then isTrue (by rw [h]) else isFalse (fun e => h (by injection e))
  | .ok _, .error _ => isFalse (fun e => by injection e)
  | .error _, .ok _ => isFalse (fun e => by injection e)

/-- The `strcmp` of `<cstring>` on two byte buffers, each read up to its terminator:
the difference of the bytes at the first position where the strings differ, `0` if none.
The byte after the end of a list is the terminator `0`. -/
def strcmp : List Nat → List Nat → Int
  | [], [] => 0
  | [], b :: _ => 0 - (b : Int)
  | a :: _, [] => (a : Int) - 0
  | a :: as, b :: bs => if a = b then strcmp as bs else (a : Int) - (b : Int)

/-! ## EventBus -/

/-- The `struct Subscriber`. -/
structure Subscriber where
  handler : Option Handler
  eventName : Option CStr
deriving DecidableEq

/-- The `class EventBus`. `subscribers` is the array made by `new Subscriber[capacity]`:
one slot per allocated entry, `none` for a slot that was never written. -/
structure EventBus where
  subscribers : List (Option Subscriber)
  count : Int
  capacity : Int
deriving DecidableEq

/-- The default argument of the constructor, `int cap = 100`. -/
def EventBus.defaultCapacity : Int := 100

/-- The constructor `EventBus(int cap)`. A negative length makes `new[]` throw. -/
def EventBus.init (cap : Int) : Except Fault EventBus :=
  if cap < 0 then .error .badArrayLength
  else .ok { subscribers := List.replicate cap.toNat none, count := 0, capacity := cap }

/-- The method `EventBus::Subscribe`. -/
def EventBus.Subscribe (b : EventBus) (eventName : Option CStr) (h : Option Handler) :
    Except Fault EventBus :=
  if b.count < b.capacity then
    if 0 ≤ b.count ∧ b.count.toNat < b.subscribers.length then
      .ok { subscribers := b.subscribers.set b.count.toNat (some ⟨h, eventName⟩),
            count := b.count + 1,
            capacity := b.capacity }
    else .error .outOfBounds
  else .ok b

/-- The loop of `EventBus::Trigger`, from index `i`, with the calls made so far.
Each iteration uses one unit of fuel. -/
def EventBus.Trigger.loop (b : EventBus) (eventName : Option CStr) :
    Nat → Int → List Call → Except Fault (List Call)
  | 0, i, calls => if i < b.count then .error .fuel else .ok calls
  | fuel + 1, i, calls =>
    if i < b.count then
      if 0 ≤ i ∧ i.toNat < b.subscribers.length then
        match b.subscribers.getD i.toNat none with
        | none => .error .uninitialised
        | some s =>
          match s.eventName, eventName with
          | some a, some n =>
            if strcmp a.val n.val = 0 then
              match s.handler with
              | none => .error .nullDeref
              | some h => EventBus.Trigger.loop b eventName fuel (i + 1) (calls ++ [⟨h, eventName⟩])
            else EventBus.Trigger.loop b eventName fuel (i + 1) calls
          | _, _ => .error .nullDeref
      else .error .outOfBounds
    else .ok calls

/-- The method `EventBus::Trigger`: the bus afterwards and the `OnEvent` calls made, in order.
The method writes no member of the bus. -/
def EventBus.Trigger (b : EventBus) (eventName : Option CStr) :
    Except Fault (EventBus × List Call) :=
  match EventBus.Trigger.loop b eventName b.count.toNat 0 [] with
  | .ok calls => .ok (b, calls)
  | .error f => .error f

/-- `EventBus_Create` of the C interface. -/
def EventBus_Create (capacity : Int) : Except Fault EventBus :=
  EventBus.init capacity

/-- `EventBus_Subscribe` of the C interface; the bus pointer may be null. -/
def EventBus_Subscribe (bus : Option EventBus) (eventName : Option CStr) (handler : Option Handler) :
    Except Fault (Option EventBus) :=
  match bus, handler with
  | some b, some h =>
    match b.Subscribe eventName (some h) with
    | .ok b1 => .ok (some b1)
    | .error f => .error f
  | _, _ => .ok bus

/-- `EventBus_Trigger` of the C interface; the bus pointer may be null. -/
def EventBus_Trigger (bus : Option EventBus) (eventName : Option CStr) :
    Except Fault (Option EventBus × List Call) :=
  match bus with
  | some b =>
    match b.Trigger eventName with
    | .ok (b1, calls) => .ok (some b1, calls)
    | .error f => .error f
  | none => .ok (none, [])

/-- The subscriptions held: the first `count` slots of the table. -/
def EventBus.stored (b : EventBus) : List (Option Subscriber) :=
  b.subscribers.take b.count.toNat

/-- A run of `Subscribe(name, handler)` calls, in order, each given as the pair
of its handler and its name. -/
def EventBus.subscribeAll : EventBus → List (Handler × CStr) → Except Fault EventBus
  | b, [] => .ok b
  | b, p :: rest =>
    match b.Subscribe (some p.2) (some p.1) with
    | .ok b1 => EventBus.subscribeAll b1 rest
    | .error f => .error f

/-- The name `"click"`. -/
def click : CStr := ⟨[99, 108, 105, 99, 107], by decide⟩

/-- The name `"hover"`. -/
def hover : CStr := ⟨[104, 111, 118, 101, 114], by decide⟩

/-! ## UI_2D_Element -/

/-- The `enum class StretchMode`. -/
inductive StretchMode where
  | None
  | Horizontal
  | Vertical
  | Both
deriving DecidableEq

/-- The `enum Padding`, as the integer value of the tag; a caller can pass any integer. -/
abbrev Padding := Int

/-- Tag `left = 0`. -/
def Padding.left : Padding := 0

/-- Tag `right = 1`. -/
def Padding.right : Padding := 1

/-- Tag `top = 2`. -/
def Padding.top : Padding := 2

/-- Tag `bottom = 3`. -/
def Padding.bottom : Padding := 3

/-- The data members of `class UI_2D_Element`. -/
structure UI_2D_Element where
  width_min : ℚ
  width_max : ℚ
  height_min : ℚ
  height_max : ℚ
  width : ℚ
  height : ℚ
  x : ℚ
  y : ℚ
  padding_left : ℚ
  padding_right : ℚ
  padding_top : ℚ
  padding_bottom : ℚ
  isVisible : Bool
  isAvailable : Bool
  hovered : Bool
  pressed : Bool
  isFocused : Bool
  Stretch_Mode_ : StretchMode
  handler : Option Handler
  elementId : Nat
deriving DecidableEq

/-- The constructor `UI_2D_Element()`, with the default member initialisers of the flags. -/
def UI_2D_Element.init : UI_2D_Element :=
  { width_min := 1, height_min := 1,
    width_max := 100000, height_max := 100000,
    width := 0, height := 0, x := 0, y := 0,
    padding_left := 0, padding_right := 0, padding_top := 0, padding_bottom := 0,
    isVisible := true, isAvailable := true,
    hovered := false, pressed := false, isFocused := false,
    Stretch_Mode_ := StretchMode.None,
    handler := none,
    elementId := 0 }

/-- The method `HitTest`, on exact values: the sums are exact. The binary32 method is
`Binary32.UI_2D_Element.HitTest`; the two agree when the sums do not round
(`ofExact_HitTest`). -/
def UI_2D_Element.HitTest (e : UI_2D_Element) (px py : ℚ) : Bool :=
  e.isVisible && e.isAvailable &&
    decide (px ≥ e.x) && decide (px ≤ e.x + e.width) &&
    decide (py ≥ e.y) && decide (py ≤ e.y + e.height)

/-- The method `SetMinSize`. -/
def UI_2D_Element.SetMinSize (e : UI_2D_Element) (_w _h : ℚ) : UI_2D_Element :=
  { e with width_min := _w, height_min := _h }

/-- The method `SetMaxSize`. -/
def UI_2D_Element.SetMaxSize (e : UI_2D_Element) (_w _h : ℚ) : UI_2D_Element :=
  { e with width_max := _w, height_max := _h }

/-- The method `SetSize`, on exact values. The binary32 method is
`Binary32.UI_2D_Element.SetSize`; the two agree on all finite values (`ofExact_SetSize`),
and only the binary32 one has NaN and infinite arguments. -/
def UI_2D_Element.SetSize (e : UI_2D_Element) (_w _h : ℚ) : UI_2D_Element :=
  { e with
    width := if _w < e.width_min then e.width_min else (if _w > e.width_max then e.width_max else _w),
    height := if _h < e.height_min then e.height_min
              else (if _h > e.height_max then e.height_max else _h) }

/-- The method `SetPosition`. -/
def UI_2D_Element.SetPosition (e : UI_2D_Element) (_x _y : ℚ) : UI_2D_Element :=
  { e with x := _x, y := _y }

/-- The method `SetPadding`: a `switch` over the four tags, with no `default` branch. -/
def UI_2D_Element.SetPadding (e : UI_2D_Element) (padding : Padding) (var : ℚ) : UI_2D_Element :=
  if padding = Padding.left then { e with padding_left := var }
  else if padding = Padding.right then { e with padding_right := var }
  else if padding = Padding.top then { e with padding_top := var }
  else if padding = Padding.bottom then { e with padding_bottom := var }
  else e

/-- The method `SetVisible`. -/
def UI_2D_Element.SetVisible (e : UI_2D_Element) (var : Bool) : UI_2D_Element :=
  { e with isVisible := var }

/-- The method `SetAvailable`. -/
def UI_2D_Element.SetAvailable (e : UI_2D_Element) (var : Bool) : UI_2D_Element :=
  { e with isAvailable := var }

/-- The method `SetEventHandler`. -/
def UI_2D_Element.SetEventHandler (e : UI_2D_Element) (h : Option Handler) : UI_2D_Element :=
  { e with handler := h }

/-- The method `TriggerEvent`: the element afterwards and the `OnEvent` calls made. -/
def UI_2D_Element.TriggerEvent (e : UI_2D_Element) (name : Option CStr) :
    UI_2D_Element × List Call :=
  match e.handler with
  | some h => (e, [⟨h, name⟩])
  | none => (e, [])

/-- `UI2D_SetPosition` of the C interface; the element pointer may be null. -/
def UI2D_SetPosition (element : Option UI_2D_Element) (x y : ℚ) : Option UI_2D_Element :=
  match element with
  | some e => some (e.SetPosition x y)
  | none => none

/-- `UI2D_SetSize` of the C interface. -/
def UI2D_SetSize (element : Option UI_2D_Element) (w h : ℚ) : Option UI_2D_Element :=
  match element with
  | some e => some (e.SetSize w h)
  | none => none

/-- `UI2D_SetPadding` of the C interface. -/
def UI2D_SetPadding (element : Option UI_2D_Element) (p : Padding) (val : ℚ) :
    Option UI_2D_Element :=
  match element with
  | some e => some (e.SetPadding p val)
  | none => none

/-- `UI2D_HitTest` of the C interface. -/
def UI2D_HitTest (element : Option UI_2D_Element) (px py : ℚ) : Bool :=
  match element with
  | none => false
  | some e => e.HitTest px py

/-- The saturating clamp in the words of the specification:
below `lo` gives `lo`, above `hi` gives `hi`, otherwise the value itself. -/
def clamp (v lo hi : ℚ) : ℚ := max lo (min v hi)

/-- The size-bound invariant of the specification: each minimum is at most its maximum. -/
def UI_2D_Element.BoundsOk (e : UI_2D_Element) : Prop :=
  e.width_min ≤ e.width_max ∧ e.height_min ≤ e.height_max

instance (e : UI_2D_Element) : Decidable e.BoundsOk := by
  unfold UI_2D_Element.BoundsOk; infer_instance

/-- A call of one public setter of the element. -/
inductive Setter where
  | SetMinSize (w h : ℚ)
  | SetMaxSize (w h : ℚ)
  | SetSize (w h : ℚ)
  | SetPosition (x y : ℚ)
  | SetPadding (padding : Padding) (var : ℚ)
  | SetVisible (var : Bool)
  | SetAvailable (var : Bool)
  | SetEventHandler (h : Option Handler)

/-- The element after one setter call. -/
def Setter.apply : Setter → UI_2D_Element → UI_2D_Element
  | .SetMinSize w h, e => e.SetMinSize w h
  | .SetMaxSize w h, e => e.SetMaxSize w h
  | .SetSize w h, e => e.SetSize w h
  | .SetPosition x y, e => e.SetPosition x y
  | .SetPadding p v, e => e.SetPadding p v
  | .SetVisible b, e => e.SetVisible b
  | .SetAvailable b, e => e.SetAvailable b
  | .SetEventHandler h, e => e.SetEventHandler h

/-- The element after a sequence of setter calls, first call first. -/
def UI_2D_Element.run : UI_2D_Element → List Setter → UI_2D_Element
  | e, [] => e
  | e, op :: ops => UI_2D_Element.run (op.apply e) ops

/-- A sequence of setter calls in which every `SetMinSize` and `SetMaxSize` call, at the
state it is made in, stores bounds with each minimum at most its maximum. -/
def UI_2D_Element.KeepsBounds : UI_2D_Element → List Setter → Prop
  | _, [] => True
  | e, op :: ops =>
    (match op with
      | .SetMinSize w h => w ≤ e.width_max ∧ h ≤ e.height_max
      | .SetMaxSize w h => e.width_min ≤ w ∧ e.height_min ≤ h
      | _ => True) ∧ UI_2D_Element.KeepsBounds (op.apply e) ops

/-- The table slot written by `Subscribe (some n) (some h)`. -/
def slot (p : Handler × CStr) : Option Subscriber :=
  some ⟨some p.1, some p.2⟩

/-- The bus holds exactly the subscriptions `subs`, in this order, all with a handler and a name. -/
def EventBus.Holds (b : EventBus) (subs : List (Handler × CStr)) : Prop :=
  b.count = subs.length ∧ b.stored = subs.map slot

instance (b : EventBus) (subs : List (Handler × CStr)) : Decidable (b.Holds subs) := by
  unfold EventBus.Holds; infer_instance

/-- The calls `Trigger(n)` is to make on the subscriptions `subs`: one per entry named `n`. -/
def dispatch (subs : List (Handler × CStr)) (n : CStr) : List Call :=
  (subs.filter (fun p => decide (p.2 = n))).map (fun p => ⟨p.1, some n⟩)

/-- A call of one public method of the bus. -/
inductive BusOp where
  | Subscribe (eventName : Option CStr) (h : Option Handler)
  | Trigger (eventName : Option CStr)

/-- The bus after one method call. -/
def BusOp.apply : BusOp → EventBus → Except Fault EventBus
  | .Subscribe eventName h, b => b.Subscribe eventName h
  | .Trigger eventName, b =>
    match b.Trigger eventName with
    | .ok (b1, _) => .ok b1
    | .error f => .error f

/-- The bus after a sequence of method calls, first call first. -/
def EventBus.run : EventBus → List BusOp → Except Fault EventBus
  | b, [] => .ok b
  | b, op :: ops =>
    match op.apply b with
    | .ok b1 => EventBus.run b1 ops
    | .error f => .error f

/-- The bus reached from `EventBus(c)` by a sequence of method calls. -/
def EventBus.reach (c : Int) (ops : List BusOp) : Except Fault EventBus :=
  match EventBus.init c with
  | .ok b0 => b0.run ops
  | .error f => .error f

/-- A method call whose pointer arguments are all non-null. -/
def BusOp.NonNull : BusOp → Prop
  | .Subscribe eventName h => eventName ≠ none ∧ h ≠ none
  | .Trigger eventName => eventName ≠ none

/-- The table invariant of the bus: `0 ≤ count ≤ capacity`, one allocated slot per unit of
capacity, and every slot below `count` written. -/
def EventBus.Inv (b : EventBus) : Prop :=
  0 ≤ b.count ∧ b.count ≤ b.capacity ∧ b.subscribers.length = b.capacity.toNat ∧
    ∀ k : Nat, k < b.count.toNat → b.subscribers.getD k none ≠ none

/-- Whether a setter call is a `SetEventHandler` call. -/
def Setter.isSetEventHandler : Setter → Bool
  | .SetEventHandler _ => true
  | _ => false

/-- The faults of an access outside the written part of the table, and of a loop that
needs more iterations than `count`. -/
def Fault.isIndexFault : Fault → Bool
  | .outOfBounds => true
  | .uninitialised => true
  | .fuel => true
  | _ => false

/-- The element after `SetMinSize(10, 10)` then `SetMaxSize(5, 5)` on a default element:
its minimum exceeds its maximum. -/
def crossedBoundsElement : UI_2D_Element :=
  (UI_2D_Element.init.SetMinSize 10 10).SetMaxSize 5 5

/-- The table slot of a stored entry with a name: the handler pointer may be null. -/
def entry (p : Option Handler × CStr) : Option Subscriber :=
  some ⟨p.1, some p.2⟩

/-- The stored entries of the bus (its first `count` slots) are written and all have a
non-null name: they are `ents`, in this order, each with its handler pointer. -/
def EventBus.HoldsNamed (b : EventBus) (ents : List (Option Handler × CStr)) : Prop :=
  b.count = ents.length ∧ b.stored = ents.map entry

instance (b : EventBus) (ents : List (Option Handler × CStr)) : Decidable (b.HoldsNamed ents) := by
  unfold EventBus.HoldsNamed; infer_instance

/-- The calls of `Trigger(n)` on the entries `ents`: one `OnEvent(n)` per entry named `n`,
on its handler. -/
def dispatchNamed (ents : List (Option Handler × CStr)) (n : CStr) : List Call :=
  (ents.filter (fun p => decide (p.2 = n))).filterMap
    (fun p => p.1.map (fun h => (⟨h, some n⟩ : Call)))

/-! ## binary32 -/

/-- Rounding of a rational to the nearest integer, ties to the even one. -/
def roundHalfEven (r : ℚ) : ℤ :=
  if r - ⌊r⌋ < 1 / 2 then ⌊r⌋
  else if 1 / 2 < r - ⌊r⌋ then ⌊r⌋ + 1
  else if ⌊r⌋ % 2 = 0 then ⌊r⌋ else ⌊r⌋ + 1

/-- The binary exponent of a magnitude in binary32: `⌊log₂ a⌋`, and `-126` (the exponent of
the subnormal range) below `2 ^ (-126)`. -/
def binaryExponent (a : ℚ) : ℤ := max (Int.log 2 a) (-126)

/-- The spacing of binary32 values around the magnitude `a`: 24 significant bits. -/
def quantum (a : ℚ) : ℚ := 2 ^ (binaryExponent a - 23)

/-- The magnitude `a ≥ 0` rounded to a multiple of its quantum, to nearest, ties to even. -/
def roundMag (a : ℚ) : ℚ := roundHalfEven (a / quantum a) * quantum a

/-- A binary32 value: NaN, an infinity, or a finite value given by its exact rational.
The finite binary32 values are the `fin q` with `F32.round q = fin q`; what is proved for
every `F32` holds for them. -/
inductive F32 where
  | nan
  | ninf
  | pinf
  | fin (q : ℚ)
deriving DecidableEq

/-- The operator `<` on `float`: false when an operand is NaN. -/
def F32.lt : F32 → F32 → Bool
  | .ninf, .pinf => true
  | .ninf, .fin _ => true
  | .fin _, .pinf => true
  | .fin a, .fin b => decide (a < b)
  | _, _ => false

/-- The operator `<=` on `float`: false when an operand is NaN. -/
def F32.le : F32 → F32 → Bool
  | .ninf, .ninf => true
  | .ninf, .pinf => true
  | .ninf, .fin _ => true
  | .pinf, .pinf => true
  | .fin _, .pinf => true
  | .fin a, .fin b => decide (a ≤ b)
  | _, _ => false

/-- The operator `>` on `float`. -/
def F32.gt (a b : F32) : Bool := F32.lt b a

/-- The operator `>=` on `float`. -/
def F32.ge (a b : F32) : Bool := F32.le b a

/-- The binary32 value of an exact result: rounded to nearest, ties to even; a result that
rounds to `2 ^ 128` or beyond overflows to the infinity of its sign. -/
def F32.round (q : ℚ) : F32 :=
  if 2 ^ 128 ≤ roundMag |q| then (if q < 0 then .ninf else .pinf)
  else .fin (if q < 0 then - roundMag |q| else roundMag |q|)

/-- The operator `+` on `float`. -/
def F32.add : F32 → F32 → F32
  | .fin a, .fin b => F32.round (a + b)
  | .nan, _ => .nan
  | _, .nan => .nan
  | .pinf, .ninf => .nan
  | .ninf, .pinf => .nan
  | .pinf, _ => .pinf
  | _, .pinf => .pinf
  | .ninf, _ => .ninf
  | _, .ninf => .ninf

/-- The binary32 value `0.1f`. -/
def F32.tenth : F32 := .fin (13421773 / 134217728)

/-- The binary32 value `1.1f`. -/
def F32.elevenTenths : F32 := .fin (9227469 / 8388608)

namespace Binary32

/-- The data members of `class UI_2D_Element`, the `float` members as binary32 values. -/
structure UI_2D_Element where
  width_min : F32
  width_max : F32
  height_min : F32
  height_max : F32
  width : F32
  height : F32
  x : F32
  y : F32
  padding_left : F32
  padding_right : F32
  padding_top : F32
  padding_bottom : F32
  isVisible : Bool
  isAvailable : Bool
  hovered : Bool
  pressed : Bool
  isFocused : Bool
  Stretch_Mode_ : StretchMode
  handler : Option Handler
  elementId : Nat
deriving DecidableEq

/-- The constructor `UI_2D_Element()`, with the default member initialisers of the flags. -/
def UI_2D_Element.init : UI_2D_Element :=
  { width_min := .fin 1, height_min := .fin 1,
    width_max := .fin 100000, height_max := .fin 100000,
    width := .fin 0, height := .fin 0, x := .fin 0, y := .fin 0,
    padding_left := .fin 0, padding_right := .fin 0, padding_top := .fin 0,
    padding_bottom := .fin 0,
    isVisible := true, isAvailable := true,
    hovered := false, pressed := false, isFocused := false,
    Stretch_Mode_ := StretchMode.None,
    handler := none,
    elementId := 0 }

/-- The method `HitTest`. -/
def UI_2D_Element.HitTest (e : UI_2D_Element) (px py : F32) : Bool :=
  e.isVisible && e.isAvailable &&
    F32.ge px e.x && F32.le px (F32.add e.x e.width) &&
    F32.ge py e.y && F32.le py (F32.add e.y e.height)

/-- The method `SetMinSize`. -/
def UI_2D_Element.SetMinSize (e : UI_2D_Element) (_w _h : F32) : UI_2D_Element :=
  { e with width_min := _w, height_min := _h }

/-- The method `SetMaxSize`. -/
def UI_2D_Element.SetMaxSize (e : UI_2D_Element) (_w _h : F32) : UI_2D_Element :=
  { e with width_max := _w, height_max := _h }

/-- The method `SetSize`. -/
def UI_2D_Element.SetSize (e : UI_2D_Element) (_w _h : F32) : UI_2D_Element :=
  { e with
    width := if F32.lt _w e.width_min then e.width_min
             else (if F32.gt _w e.width_max then e.width_max else _w),
    height := if F32.lt _h e.height_min then e.height_min
              else (if F32.gt _h e.height_max then e.height_max else _h) }

/-- The method `SetPosition`. -/
def UI_2D_Element.SetPosition (e : UI_2D_Element) (_x _y : F32) : UI_2D_Element :=
  { e with x := _x, y := _y }

/-- The method `SetPadding`: a `switch` over the four tags, with no `default` branch. -/
def UI_2D_Element.SetPadding (e : UI_2D_Element) (padding : Padding) (var : F32) :
    UI_2D_Element :=
  if padding = Padding.left then { e with padding_left := var }
  else if padding = Padding.right then { e with padding_right := var }
  else if padding = Padding.top then { e with padding_top := var }
  else if padding = Padding.bottom then { e with padding_bottom := var }
  else e

/-- The method `SetVisible`. -/
def UI_2D_Element.SetVisible (e : UI_2D_Element) (var : Bool) : UI_2D_Element :=
  { e with isVisible := var }

/-- The method `SetAvailable`. -/
def UI_2D_Element.SetAvailable (e : UI_2D_Element) (var : Bool) : UI_2D_Element :=
  { e with isAvailable := var }

/-- The method `SetEventHandler`. -/
def UI_2D_Element.SetEventHandler (e : UI_2D_Element) (h : Option Handler) : UI_2D_Element :=
  { e with handler := h }

/-- The element of the exact embedding, its values read as finite binary32 values. -/
def ofExact (e : UICore.UI_2D_Element) : UI_2D_Element :=
  { width_min := .fin e.width_min, width_max := .fin e.width_max,
    height_min := .fin e.height_min, height_max := .fin e.height_max,
    width := .fin e.width, height := .fin e.height, x := .fin e.x, y := .fin e.y,
    padding_left := .fin e.padding_left, padding_right := .fin e.padding_right,
    padding_top := .fin e.padding_top, padding_bottom := .fin e.padding_bottom,
    isVisible := e.isVisible, isAvailable := e.isAvailable,
    hovered := e.hovered, pressed := e.pressed, isFocused := e.isFocused,
    Stretch_Mode_ := e.Stretch_Mode_,
    handler := e.handler,
    elementId := e.elementId }

/-- The element after `SetSize(1, 1)` then `SetPosition(0.1f, 0)` on a default element. -/
def tenthElement : UI_2D_Element :=
  (UI_2D_Element.init.SetSize (.fin 1) (.fin 1)).SetPosition F32.tenth (.fin 0)

/-- The element after `SetSize(40, 40)` then `SetMaxSize(20, 20)` on a default element. -/
def shrunkMaxElement : UI_2D_Element :=
  (UI_2D_Element.init.SetSize (.fin 40) (.fin 40)).SetMaxSize (.fin 20) (.fin 20)

/-- The element after `SetMaxSize(+inf, +inf)` then `SetPosition(-inf, 0)` on a default
element. -/
def unboundedElement : UI_2D_Element :=
  (UI_2D_Element.init.SetMaxSize .pinf .pinf).SetPosition .ninf (.fin 0)

end Binary32

/-! ## Theorems -/

theorem strcmp_eq_zero_iff_val (a b : List Nat) (ha : 0 ∉ a) (hb : 0 ∉ b) :
    strcmp a b = 0 ↔ a = b := by
  induction a generalizing b with
  | nil =>
    cases b with
    | nil => simp [strcmp]
    | cons y ys =>
      have hy : y ≠ 0 := fun h => hb (by simp [h])
      simp [strcmp]
      omega
  | cons x xs ih =>
    have hx : x ≠ 0 := fun h => ha (by simp [h])
    cases b with
    | nil =>
      simp [strcmp]
      omega
    | cons y ys =>
      have hxs : 0 ∉ xs := fun h => ha (by simp [h])
      have hys : 0 ∉ ys := fun h => hb (by simp [h])
      by_cases hxy : x = y
      · subst hxy
        simp [strcmp, ih ys hxs hys]
      · simp [strcmp, hxy]
        omega

theorem strcmp_eq_zero_iff (a b : CStr) : strcmp a.val b.val = 0 ↔ a = b := by
  rw [strcmp_eq_zero_iff_val a.val b.val a.property b.property]
  exact Subtype.ext_iff.symm

theorem holds_length_le (b : EventBus) (subs : List (Handler × CStr)) (hb : b.Holds subs) :
    subs.length ≤ b.subscribers.length := by
  obtain ⟨hc, hs⟩ := hb
  have h1 := congrArg List.length hs
  simp [EventBus.stored, hc] at h1
  exact h1

theorem holds_getD (b : EventBus) (subs : List (Handler × CStr)) (hb : b.Holds subs)
    (k : Nat) (hk : k < subs.length) :
    b.subscribers.getD k none = slot (subs[k]) := by
  have hlen := holds_length_le b subs hb
  obtain ⟨hc, hs⟩ := hb
  have h1 : (b.subscribers.take b.count.toNat)[k]? = (subs.map slot)[k]? := by
    rw [← hs]; rfl
  rw [List.getElem?_take_of_lt (by rw [hc]; simpa using hk)] at h1
  rw [List.getD_eq_getElem?_getD, h1]
  simp [List.getElem?_eq_getElem hk]

theorem trigger_loop_holds (b : EventBus) (subs : List (Handler × CStr)) (n : CStr)
    (hb : b.Holds subs) :
    ∀ (m k : Nat) (calls : List Call), k + m = subs.length →
      EventBus.Trigger.loop b (some n) m (k : Int) calls
        = .ok (calls ++ dispatch (subs.drop k) n) := by
  have hlen := holds_length_le b subs hb
  have hc := hb.1
  intro m
  induction m with
  | zero =>
    intro k calls hk
    have hk0 : k = subs.length := by omega
    simp [EventBus.Trigger.loop, hc, hk0, dispatch]
  | succ m ih =>
    intro k calls hk
    have hklt : k < subs.length := by omega
    have hget := holds_getD b subs hb k hklt
    have hdrop : subs.drop k = subs[k] :: subs.drop (k + 1) :=
      List.drop_eq_getElem_cons hklt
    have ih1 := ih (k + 1)
    have hcast : ((k : Int) + 1) = ((k + 1 : Nat) : Int) := by push_cast; rfl
    unfold EventBus.Trigger.loop
    have h1 : (k : Int) < b.count := by rw [hc]; exact_mod_cast hklt
    have h2 : 0 ≤ (k : Int) ∧ (k : Int).toNat < b.subscribers.length := by
      constructor
      · omega
      · simp; omega
    rw [if_pos h1, if_pos h2]
    simp only [Int.toNat_ofNat, hget, slot]
    by_cases hn : (subs[k]).2 = n
    · have hz : strcmp (subs[k]).2.val n.val = 0 := (strcmp_eq_zero_iff _ _).mpr hn
      simp only [hz, if_true]
      have hd : dispatch (subs.drop k) n = ⟨subs[k].1, some n⟩ :: dispatch (subs.drop (k + 1)) n := by
        rw [hdrop]
        simp only [dispatch, List.filter_cons, hn, decide_True, if_true, List.map_cons]
      rw [hcast, ih1 _ (by omega), hd]
      simp
    · have hz : ¬ strcmp (subs[k]).2.val n.val = 0 :=
        fun h => hn ((strcmp_eq_zero_iff _ _).mp h)
      simp only [hz, if_false]
      have hd : dispatch (subs.drop k) n = dispatch (subs.drop (k + 1)) n := by
        rw [hdrop]
        simp only [dispatch, List.filter_cons, hn, decide_False, Bool.false_eq_true, if_false]
      rw [hcast, ih1 _ (by omega), hd]

theorem trigger_holds (b : EventBus) (subs : List (Handler × CStr)) (n : CStr)
    (hb : b.Holds subs) :
    b.Trigger (some n) = .ok (b, dispatch subs n) := by
  have h := trigger_loop_holds b subs n hb subs.length 0 [] (by simp)
  unfold EventBus.Trigger
  rw [hb.1]
  simp only [Int.toNat_ofNat]
  have h0 : ((0 : Nat) : Int) = 0 := rfl
  rw [h0] at h
  rw [h]
  simp

theorem take_succ_set {α : Type} (l : List α) (k : Nat) (x : α) (hk : k < l.length) :
    (l.set k x).take (k + 1) = l.take k ++ [x] := by
  induction l generalizing k with
  | nil => simp at hk
  | cons a l ih =>
    cases k with
    | zero => simp
    | succ k =>
      have hk1 : k < l.length := by simpa using hk
      simp [ih k hk1]

theorem init_ok (c : Int) (hc : 0 ≤ c) :
    EventBus.init c = .ok ⟨List.replicate c.toNat none, 0, c⟩ := by
  unfold EventBus.init
  rw [if_neg (by omega)]

theorem init_holds (c : Int) :
    (⟨List.replicate c.toNat none, 0, c⟩ : EventBus).Holds [] := by
  simp [EventBus.Holds, EventBus.stored]

theorem subscribe_full (b : EventBus) (hfull : b.capacity ≤ b.count)
    (eventName : Option CStr) (h : Option Handler) :
    b.Subscribe eventName h = .ok b := by
  unfold EventBus.Subscribe
  rw [if_neg (by omega)]

theorem subscribe_free (b : EventBus) (subs : List (Handler × CStr)) (hb : b.Holds subs)
    (hlen : b.subscribers.length = b.capacity.toNat) (hfree : b.count < b.capacity)
    (p : Handler × CStr) :
    ∃ b1, b.Subscribe (some p.2) (some p.1) = .ok b1 ∧ b1.Holds (subs ++ [p]) ∧
      b1.subscribers.length = b1.capacity.toNat ∧ b1.capacity = b.capacity := by
  obtain ⟨hc, hs⟩ := hb
  have hin : 0 ≤ b.count ∧ b.count.toNat < b.subscribers.length := by
    constructor
    · omega
    · rw [hlen]; omega
  refine ⟨⟨b.subscribers.set b.count.toNat (some ⟨some p.1, some p.2⟩), b.count + 1, b.capacity⟩,
    ?_, ⟨?_, ?_⟩, ?_, rfl⟩
  · unfold EventBus.Subscribe
    rw [if_pos hfree, if_pos hin]
  · simp [hc]
  · have ht : b.count.toNat = subs.length := by rw [hc]; rfl
    have ht1 : (b.count + 1).toNat = subs.length + 1 := by rw [hc]; rfl
    simp only [EventBus.stored, ht, ht1] at hs ⊢
    have hk : subs.length < b.subscribers.length := by rw [← ht]; exact hin.2
    rw [take_succ_set _ _ _ hk, hs]
    simp [slot]
  · simpa using hlen

theorem subscribeAll_holds (calls : List (Handler × CStr)) :
    ∀ (b : EventBus) (subs : List (Handler × CStr)), b.Holds subs →
      b.subscribers.length = b.capacity.toNat →
      ∃ b1, b.subscribeAll calls = .ok b1 ∧
        b1.Holds (subs ++ calls.take (b.capacity.toNat - subs.length)) ∧
        b1.subscribers.length = b1.capacity.toNat ∧ b1.capacity = b.capacity ∧
        (b.capacity ≤ b.count → b1 = b) := by
  induction calls with
  | nil =>
    intro b subs hb hlen
    exact ⟨b, rfl, by simpa using hb, hlen, rfl, fun _ => rfl⟩
  | cons p rest ih =>
    intro b subs hb hlen
    by_cases hfree : b.count < b.capacity
    · obtain ⟨b1, hsub, hb1, hlen1, hcap1⟩ := subscribe_free b subs hb hlen hfree p
      obtain ⟨b2, hall, hb2, hlen2, hcap2, _⟩ := ih b1 (subs ++ [p]) hb1 hlen1
      refine ⟨b2, ?_, ?_, hlen2, by rw [hcap2, hcap1], fun h => absurd hfree (by omega)⟩
      · simp only [EventBus.subscribeAll, hsub, hall]
      · have hlt : subs.length < b.capacity.toNat := by
          have := hb.1
          omega
        have hk : b.capacity.toNat - subs.length = (b.capacity.toNat - (subs.length + 1)) + 1 := by
          omega
        rw [hk, List.take_succ_cons]
        rw [hcap1] at hb2
        simpa using hb2
    · have hfull : b.capacity ≤ b.count := by omega
      have hsub := subscribe_full b hfull (some p.2) (some p.1)
      obtain ⟨b2, hall, hb2, hlen2, hcap2, hsame⟩ := ih b subs hb hlen
      refine ⟨b2, ?_, ?_, hlen2, hcap2, hsame⟩
      · simp only [EventBus.subscribeAll, hsub, hall]
      · have hk : b.capacity.toNat - subs.length = 0 := by
          have := hb.1
          omega
        rw [hk] at hb2 ⊢
        simpa using hb2

theorem named_length_le (b : EventBus) (ents : List (Option Handler × CStr))
    (hb : b.HoldsNamed ents) : ents.length ≤ b.subscribers.length := by
  obtain ⟨hc, hs⟩ := hb
  have h1 := congrArg List.length hs
  simp [EventBus.stored, hc] at h1
  exact h1

theorem named_getD (b : EventBus) (ents : List (Option Handler × CStr))
    (hb : b.HoldsNamed ents) (k : Nat) (hk : k < ents.length) :
    b.subscribers.getD k none = entry (ents[k]) := by
  obtain ⟨hc, hs⟩ := hb
  have h1 : (b.subscribers.take b.count.toNat)[k]? = (ents.map entry)[k]? := by
    rw [← hs]; rfl
  rw [List.getElem?_take_of_lt (by rw [hc]; simpa using hk)] at h1
  rw [List.getD_eq_getElem?_getD, h1]
  simp [List.getElem?_eq_getElem hk]

theorem trigger_loop_named (b : EventBus) (ents : List (Option Handler × CStr)) (n : CStr)
    (hb : b.HoldsNamed ents) (hh : ∀ p ∈ ents, p.2 = n → p.1 ≠ none) :
    ∀ (m k : Nat) (calls : List Call), k + m = ents.length →
      EventBus.Trigger.loop b (some n) m (k : Int) calls
        = .ok (calls ++ dispatchNamed (ents.drop k) n) := by
  have hlen := named_length_le b ents hb
  have hc := hb.1
  intro m
  induction m with
  | zero =>
    intro k calls hk
    have hk0 : k = ents.length := by omega
    simp [EventBus.Trigger.loop, hc, hk0, dispatchNamed]
  | succ m ih =>
    intro k calls hk
    have hklt : k < ents.length := by omega
    have hget := named_getD b ents hb k hklt
    have hdrop : ents.drop k = ents[k] :: ents.drop (k + 1) :=
      List.drop_eq_getElem_cons hklt
    have ih1 := ih (k + 1)
    have hcast : ((k : Int) + 1) = ((k + 1 : Nat) : Int) := by push_cast; rfl
    unfold EventBus.Trigger.loop
    have h1 : (k : Int) < b.count := by rw [hc]; exact_mod_cast hklt
    have h2 : 0 ≤ (k : Int) ∧ (k : Int).toNat < b.subscribers.length := by
      constructor
      · omega
      · simp; omega
    rw [if_pos h1, if_pos h2]
    simp only [Int.toNat_ofNat, hget, entry]
    by_cases hn : (ents[k]).2 = n
    · have hz : strcmp (ents[k]).2.val n.val = 0 := (strcmp_eq_zero_iff _ _).mpr hn
      have hne := hh (ents[k]) (List.getElem_mem hklt) hn
      obtain ⟨h, hsome⟩ := Option.ne_none_iff_exists'.mp hne
      simp only [hz, if_true, hsome]
      have hd : dispatchNamed (ents.drop k) n
          = ⟨h, some n⟩ :: dispatchNamed (ents.drop (k + 1)) n := by
        rw [hdrop]
        simp only [dispatchNamed, List.filter_cons, hn, decide_True, if_true,
          List.filterMap_cons, hsome, Option.map_some']
      rw [hcast, ih1 _ (by omega), hd]
      simp
    · have hz : ¬ strcmp (ents[k]).2.val n.val = 0 :=
        fun h => hn ((strcmp_eq_zero_iff _ _).mp h)
      simp only [hz, if_false]
      have hd : dispatchNamed (ents.drop k) n = dispatchNamed (ents.drop (k + 1)) n := by
        rw [hdrop]
        simp only [dispatchNamed, List.filter_cons, hn, decide_False, Bool.false_eq_true,
          if_false]
      rw [hcast, ih1 _ (by omega), hd]

theorem trigger_named (b : EventBus) (ents : List (Option Handler × CStr)) (n : CStr)
    (hb : b.HoldsNamed ents) (hh : ∀ p ∈ ents, p.2 = n → p.1 ≠ none) :
    b.Trigger (some n) = .ok (b, dispatchNamed ents n) := by
  have h := trigger_loop_named b ents n hb hh ents.length 0 [] (by simp)
  unfold EventBus.Trigger
  rw [hb.1]
  simp only [Int.toNat_ofNat]
  have h0 : ((0 : Nat) : Int) = 0 := rfl
  rw [h0] at h
  rw [h]
  simp

theorem dispatchNamed_spec (n : CStr) (ents : List (Option Handler × CStr))
    (hh : ∀ p ∈ ents, p.2 = n → p.1 ≠ none) :
    (dispatchNamed ents n).map (fun c => (some c.handler, n))
        = ents.filter (fun p => decide (p.2 = n))
      ∧ ∀ c ∈ dispatchNamed ents n, c.name = some n := by
  induction ents with
  | nil => simp [dispatchNamed]
  | cons p rest ih =>
    have ih1 := ih (fun q hq => hh q (by simp [hq]))
    by_cases hn : p.2 = n
    · obtain ⟨h, hsome⟩ := Option.ne_none_iff_exists'.mp (hh p (by simp) hn)
      have hp : p = (some h, n) := by
        rcases p with ⟨p1, p2⟩
        simp only at hn hsome
        rw [hn, ← hsome]
      have hd : dispatchNamed (p :: rest) n = ⟨h, some n⟩ :: dispatchNamed rest n := by
        simp only [dispatchNamed, List.filter_cons, hn, decide_True, if_true,
          List.filterMap_cons, hsome, Option.map_some']
      rw [hd]
      constructor
      · simp only [List.map_cons, List.filter_cons, hn, decide_True, if_true, ih1.1, hp]
      · intro c hc
        rcases List.mem_cons.mp hc with rfl | hc
        · rfl
        · exact ih1.2 c hc
    · have hd : dispatchNamed (p :: rest) n = dispatchNamed rest n := by
        simp only [dispatchNamed, List.filter_cons, hn, decide_False, Bool.false_eq_true,
          if_false]
      rw [hd]
      constructor
      · simp only [List.filter_cons, hn, decide_False, Bool.false_eq_true, if_false, ih1.1]
      · exact ih1.2

theorem subscribe_append (b : EventBus) (h0 : 0 ≤ b.count)
    (hlen : b.subscribers.length = b.capacity.toNat) (hfree : b.count < b.capacity)
    (n : Option CStr) (h : Option Handler) :
    ∃ b1, b.Subscribe n h = .ok b1 ∧ b1.count = b.count + 1 ∧ b1.capacity = b.capacity
      ∧ b1.subscribers.length = b1.capacity.toNat
      ∧ b1.stored = b.stored ++ [some ⟨h, n⟩] := by
  have hin : 0 ≤ b.count ∧ b.count.toNat < b.subscribers.length := by
    constructor
    · exact h0
    · rw [hlen]; omega
  refine ⟨⟨b.subscribers.set b.count.toNat (some ⟨h, n⟩), b.count + 1, b.capacity⟩,
    ?_, rfl, rfl, ?_, ?_⟩
  · unfold EventBus.Subscribe
    rw [if_pos hfree, if_pos hin]
  · simpa using hlen
  · have ht1 : (b.count + 1).toNat = b.count.toNat + 1 := by omega
    simp only [EventBus.stored, ht1]
    exact take_succ_set _ _ _ hin.2

theorem subscribe_named (b : EventBus) (ents : List (Option Handler × CStr))
    (hb : b.HoldsNamed ents) (hlen : b.subscribers.length = b.capacity.toNat)
    (hfree : b.count < b.capacity) (n : CStr) (h : Option Handler) :
    ∃ b1, b.Subscribe (some n) h = .ok b1 ∧ b1.count = b.count + 1
      ∧ b1.capacity = b.capacity ∧ b1.subscribers.length = b1.capacity.toNat
      ∧ b1.stored = b.stored ++ [entry (h, n)] ∧ b1.HoldsNamed (ents ++ [(h, n)]) := by
  have h0 : 0 ≤ b.count := by rw [hb.1]; omega
  obtain ⟨b1, hs, hc1, hcap1, hlen1, hst1⟩ := subscribe_append b h0 hlen hfree (some n) h
  refine ⟨b1, hs, hc1, hcap1, hlen1, hst1, ?_, ?_⟩
  · rw [hc1, hb.1]
    simp
  · rw [hst1, hb.2]
    simp [entry]

/-! ### binary32 arithmetic -/

theorem floor_le_roundHalfEven (r : ℚ) : ⌊r⌋ ≤ roundHalfEven r := by
  unfold roundHalfEven
  split_ifs <;> omega

theorem roundHalfEven_le (r : ℚ) : roundHalfEven r ≤ ⌊r⌋ + 1 := by
  unfold roundHalfEven
  split_ifs <;> omega

theorem roundHalfEven_intCast (z : ℤ) : roundHalfEven (z : ℚ) = z := by
  unfold roundHalfEven
  rw [Int.floor_intCast]
  simp

theorem roundHalfEven_mono (a b : ℚ) (h : a ≤ b) : roundHalfEven a ≤ roundHalfEven b := by
  have hfg : ⌊a⌋ ≤ ⌊b⌋ := Int.floor_mono h
  rcases lt_or_eq_of_le hfg with hlt | heq
  · have h1 := roundHalfEven_le a
    have h2 := floor_le_roundHalfEven b
    omega
  · unfold roundHalfEven
    rw [← heq]
    split_ifs <;> first | omega | (exfalso; linarith)

theorem roundHalfEven_eq_of_lt (r : ℚ) (m : ℤ) (h1 : (m : ℚ) - 1 / 2 < r)
    (h2 : r < (m : ℚ) + 1 / 2) : roundHalfEven r = m := by
  unfold roundHalfEven
  have hf1 := Int.floor_le r
  have hf2 := Int.lt_floor_add_one r
  by_cases hm : (m : ℚ) ≤ r
  · have hfl : ⌊r⌋ = m := Int.floor_eq_iff.mpr ⟨hm, by linarith⟩
    rw [hfl, if_pos (by linarith)]
  · have hfl : ⌊r⌋ = m - 1 := Int.floor_eq_iff.mpr ⟨by push_cast; linarith, by push_cast; linarith⟩
    rw [hfl]
    push_cast
    rw [if_neg (by linarith), if_pos (by linarith)]
    ring

theorem log_eq_of_bounds (a : ℚ) (e : ℤ) (h1 : (2 : ℚ) ^ e ≤ a) (h2 : a < (2 : ℚ) ^ (e + 1)) :
    Int.log 2 a = e := by
  have ha : 0 < a := lt_of_lt_of_le (zpow_pos (by norm_num) e) h1
  have h3 : e ≤ Int.log 2 a := (Int.zpow_le_iff_le_log (by norm_num) ha).mp (by exact_mod_cast h1)
  have h4 : Int.log 2 a < e + 1 := (Int.lt_zpow_iff_log_lt (by norm_num) ha).mp (by exact_mod_cast h2)
  omega

theorem quantum_pos (a : ℚ) : 0 < quantum a := zpow_pos (by norm_num) _

theorem roundMag_le_top (a : ℚ) :
    roundMag a ≤ (2 : ℚ) ^ (binaryExponent a + 1) := by
  have hu := quantum_pos a
  have h1 : a < (2 : ℚ) ^ (Int.log 2 a + 1) := by
    have h0 : a < ((2 : ℕ) : ℚ) ^ (Int.log 2 a + 1) :=
      Int.lt_zpow_succ_log_self (by norm_num) a
    exact_mod_cast h0
  have h2 : (2 : ℚ) ^ (Int.log 2 a + 1) ≤ (2 : ℚ) ^ (binaryExponent a + 1) :=
    zpow_le_zpow_right₀ (by norm_num) (by unfold binaryExponent; omega)
  have h3 : (2 : ℚ) ^ (binaryExponent a + 1) = ((2 ^ 24 : ℤ) : ℚ) * quantum a := by
    unfold quantum
    rw [show binaryExponent a + 1 = 24 + (binaryExponent a - 23) by ring,
      zpow_add₀ (by norm_num)]
    norm_num
  have h4 : a / quantum a ≤ ((2 ^ 24 : ℤ) : ℚ) := by
    rw [div_le_iff₀ hu, ← h3]
    linarith
  have h5 := roundHalfEven_mono _ _ h4
  rw [roundHalfEven_intCast] at h5
  unfold roundMag
  rw [h3]
  exact mul_le_mul_of_nonneg_right (by exact_mod_cast h5) hu.le

theorem le_roundMag (a : ℚ) (ha : 0 < a) (he : -126 < binaryExponent a) :
    (2 : ℚ) ^ (binaryExponent a) ≤ roundMag a := by
  have hu := quantum_pos a
  have hlog : binaryExponent a = Int.log 2 a := by
    unfold binaryExponent at he ⊢
    omega
  have h1 : (2 : ℚ) ^ (binaryExponent a) ≤ a := by
    rw [hlog]
    have h0 : ((2 : ℕ) : ℚ) ^ Int.log 2 a ≤ a := Int.zpow_log_le_self (by norm_num) ha
    exact_mod_cast h0
  have h3 : (2 : ℚ) ^ (binaryExponent a) = ((2 ^ 23 : ℤ) : ℚ) * quantum a := by
    unfold quantum
    rw [show binaryExponent a = 23 + (binaryExponent a - 23) by ring,
      zpow_add₀ (by norm_num)]
    norm_num
  have h4 : ((2 ^ 23 : ℤ) : ℚ) ≤ a / quantum a := by
    rw [le_div_iff₀ hu, ← h3]
    exact h1
  have h5 := roundHalfEven_mono _ _ h4
  rw [roundHalfEven_intCast] at h5
  unfold roundMag
  rw [h3]
  exact mul_le_mul_of_nonneg_right (by exact_mod_cast h5) hu.le

theorem binaryExponent_mono (a b : ℚ) (ha : 0 < a) (h : a ≤ b) :
    binaryExponent a ≤ binaryExponent b := by
  have h0 : Int.log 2 a ≤ Int.log 2 b := Int.log_mono_right ha h
  unfold binaryExponent
  omega

theorem roundMag_mono (a b : ℚ) (ha : 0 < a) (h : a ≤ b) : roundMag a ≤ roundMag b := by
  have hb : 0 < b := lt_of_lt_of_le ha h
  have he := binaryExponent_mono a b ha h
  rcases lt_or_eq_of_le he with hlt | heq
  · have h1 := roundMag_le_top a
    have h2 := le_roundMag b hb (by unfold binaryExponent at hlt ⊢; omega)
    have h3 : (2 : ℚ) ^ (binaryExponent a + 1) ≤ (2 : ℚ) ^ (binaryExponent b) :=
      zpow_le_zpow_right₀ (by norm_num) (by omega)
    linarith
  · have hq : quantum a = quantum b := by unfold quantum; rw [heq]
    unfold roundMag
    rw [hq]
    have hu := quantum_pos b
    have h4 : a / quantum b ≤ b / quantum b := div_le_div_of_nonneg_right h hu.le
    have h5 := roundHalfEven_mono _ _ h4
    exact mul_le_mul_of_nonneg_right (by exact_mod_cast h5) hu.le

theorem roundMag_zero : roundMag 0 = 0 := by
  unfold roundMag
  simp [roundHalfEven]

theorem roundMag_nonneg (a : ℚ) (ha : 0 ≤ a) : 0 ≤ roundMag a := by
  have hu := quantum_pos a
  unfold roundMag
  have h1 : (0 : ℚ) ≤ a / quantum a := div_nonneg ha hu.le
  have h2 := roundHalfEven_mono _ _ h1
  have h0 : roundHalfEven 0 = 0 := by simp [roundHalfEven]
  rw [h0] at h2
  exact mul_nonneg (by exact_mod_cast h2) hu.le

theorem roundMag_mono_nonneg (a b : ℚ) (ha : 0 ≤ a) (h : a ≤ b) : roundMag a ≤ roundMag b := by
  rcases lt_or_eq_of_le ha with hpos | hz
  · exact roundMag_mono a b hpos h
  · rw [← hz, roundMag_zero]
    exact roundMag_nonneg b (by linarith)

theorem roundMag_eval (a : ℚ) (e m : ℤ) (he : -126 ≤ e) (h1 : (2 : ℚ) ^ e ≤ a)
    (h2 : a < (2 : ℚ) ^ (e + 1)) (hm1 : (m : ℚ) - 1 / 2 < a / 2 ^ (e - 23))
    (hm2 : a / 2 ^ (e - 23) < (m : ℚ) + 1 / 2) :
    roundMag a = m * 2 ^ (e - 23) := by
  have hlog := log_eq_of_bounds a e h1 h2
  have hexp : binaryExponent a = e := by unfold binaryExponent; omega
  unfold roundMag quantum
  rw [hexp, roundHalfEven_eq_of_lt _ m hm1 hm2]

theorem f32_le_ne_nan (a b : F32) (h : F32.le a b = true) : a ≠ .nan ∧ b ≠ .nan := by
  cases a <;> cases b <;> simp [F32.le] at h ⊢

theorem f32_le_refl (a : F32) (h : a ≠ .nan) : F32.le a a = true := by
  cases a <;> simp [F32.le] at h ⊢

theorem f32_le_trans (a b c : F32) (h1 : F32.le a b = true) (h2 : F32.le b c = true) :
    F32.le a c = true := by
  cases a <;> cases b <;> cases c <;> simp [F32.le] at h1 h2 ⊢
  exact le_trans h1 h2

theorem f32_lt_false (a b : F32) (ha : a ≠ .nan) (hb : b ≠ .nan) (h : F32.lt a b = false) :
    F32.le b a = true := by
  cases a <;> cases b <;> simp [F32.lt, F32.le] at ha hb h ⊢
  exact h

theorem f32_lt_true (a b : F32) (h : F32.lt a b = true) :
    F32.le a b = true ∧ F32.le b a = false := by
  cases a <;> cases b <;> simp [F32.lt, F32.le] at h ⊢
  exact ⟨le_of_lt h, h⟩

theorem f32_round_ne_nan (q : ℚ) : F32.round q ≠ .nan := by
  unfold F32.round
  split_ifs <;> simp

theorem f32_round_mono (a b : ℚ) (h : a ≤ b) : F32.le (F32.round a) (F32.round b) = true := by
  have hMa := roundMag_nonneg |a| (abs_nonneg a)
  have hMb := roundMag_nonneg |b| (abs_nonneg b)
  unfold F32.round
  by_cases ha : a < 0
  · by_cases hb : b < 0
    · have hab : |b| ≤ |a| := by
        rw [abs_of_neg ha, abs_of_neg hb]; linarith
      have hM := roundMag_mono_nonneg |b| |a| (abs_nonneg b) hab
      simp only [ha, hb, if_true]
      split_ifs with h1 h2 h2
      · rfl
      · rfl
      · exact absurd (le_trans h2 hM) h1
      · simp only [F32.le, decide_eq_true_eq]; linarith
    · simp only [ha, hb, if_true, if_false]
      split_ifs with h1 h2 h2
      · rfl
      · rfl
      · rfl
      · simp only [F32.le, decide_eq_true_eq]; linarith
  · have hb : ¬ b < 0 := by linarith
    have hab : |a| ≤ |b| := by
      rw [abs_of_nonneg (not_lt.mp ha), abs_of_nonneg (not_lt.mp hb)]; exact h
    have hM := roundMag_mono_nonneg |a| |b| (abs_nonneg a) hab
    simp only [ha, hb, if_false]
    split_ifs with h1 h2 h2
    · rfl
    · exact absurd (le_trans h1 hM) h2
    · rfl
    · simp only [F32.le, decide_eq_true_eq]; exact hM

theorem f32_add_mono (x w1 w2 : F32) (h : F32.le w1 w2 = true)
    (h1 : F32.add x w1 ≠ .nan) (h2 : F32.add x w2 ≠ .nan) :
    F32.le (F32.add x w1) (F32.add x w2) = true := by
  cases x <;> cases w1 <;> cases w2 <;> simp [F32.add, F32.le] at h h1 h2 ⊢
  · rename_i x a
    have := f32_round_ne_nan (x + a)
    cases hr : F32.round (x + a) <;> simp [hr] at this ⊢
  · rename_i x a
    have := f32_round_ne_nan (x + a)
    cases hr : F32.round (x + a) <;> simp [hr] at this ⊢
  · rename_i x a b
    exact f32_round_mono _ _ (by linarith)

theorem f32_round_eval (q : ℚ) (e m : ℤ) (hq : 0 < q) (he : -126 ≤ e)
    (h1 : (2 : ℚ) ^ e ≤ q) (h2 : q < (2 : ℚ) ^ (e + 1))
    (hm1 : (m : ℚ) - 1 / 2 < q / 2 ^ (e - 23)) (hm2 : q / 2 ^ (e - 23) < (m : ℚ) + 1 / 2)
    (hfin : (m : ℚ) * 2 ^ (e - 23) < 2 ^ 128) :
    F32.round q = .fin (m * 2 ^ (e - 23)) := by
  unfold F32.round
  rw [abs_of_pos hq, roundMag_eval q e m he h1 h2 hm1 hm2, if_neg (not_le.mpr hfin),
    if_neg (not_lt.mpr hq.le)]

theorem f32_round_zero : F32.round 0 = .fin 0 := by
  unfold F32.round
  rw [abs_zero, roundMag_zero]
  norm_num

theorem f32_clamp_bounds (v lo hi : F32) (hv : v ≠ .nan) (hle : F32.le lo hi = true) :
    F32.le lo (if F32.lt v lo then lo else (if F32.gt v hi then hi else v)) = true
      ∧ F32.le (if F32.lt v lo then lo else (if F32.gt v hi then hi else v)) hi = true := by
  obtain ⟨hlo, hhi⟩ := f32_le_ne_nan lo hi hle
  by_cases h1 : F32.lt v lo = true
  · rw [if_pos h1]
    exact ⟨f32_le_refl lo hlo, hle⟩
  · rw [if_neg h1]
    have h1b := f32_lt_false v lo hv hlo (by simpa using h1)
    by_cases h2 : F32.gt v hi = true
    · rw [if_pos h2]
      exact ⟨hle, f32_le_refl hi hhi⟩
    · rw [if_neg h2]
      exact ⟨h1b, f32_lt_false hi v hhi hv (by simpa [F32.gt] using h2)⟩

theorem f32_clamp_mono (v1 v2 lo hi : F32) (hle : F32.le lo hi = true)
    (hv : F32.le v1 v2 = true) :
    F32.le (if F32.lt v1 lo then lo else (if F32.gt v1 hi then hi else v1))
      (if F32.lt v2 lo then lo else (if F32.gt v2 hi then hi else v2)) = true := by
  obtain ⟨hlo, hhi⟩ := f32_le_ne_nan lo hi hle
  obtain ⟨hv1, hv2⟩ := f32_le_ne_nan v1 v2 hv
  have hb2 := f32_clamp_bounds v2 lo hi hv2 hle
  by_cases h1 : F32.lt v1 lo = true
  · rw [if_pos h1]
    exact hb2.1
  · rw [if_neg h1]
    have h1b := f32_lt_false v1 lo hv1 hlo (by simpa using h1)
    have h1c : ¬ F32.lt v2 lo = true := by
      intro h
      have h3 := (f32_lt_true v2 lo h).2
      rw [f32_le_trans lo v1 v2 h1b hv] at h3
      cases h3
    rw [if_neg h1c]
    by_cases h2 : F32.gt v1 hi = true
    · have h2b : F32.gt v2 hi = true := by
        by_contra hcon
        have h4 := f32_lt_false hi v2 hhi hv2 (by simpa [F32.gt] using hcon)
        have h5 := (f32_lt_true hi v1 h2).2
        rw [f32_le_trans v1 v2 hi hv h4] at h5
        cases h5
      rw [if_pos h2, if_pos h2b]
      exact f32_le_refl hi hhi
    · rw [if_neg h2]
      have h2c := f32_lt_false hi v1 hhi hv1 (by simpa [F32.gt] using h2)
      by_cases h3 : F32.gt v2 hi = true
      · rw [if_pos h3]
        exact h2c
      · rw [if_neg h3]
        exact hv

/-- The exact embedding agrees with the binary32 one on `SetSize`: comparing and copying
finite values involves no rounding. -/
theorem ofExact_SetSize (e : UI_2D_Element) (w h : ℚ) :
    Binary32.ofExact (e.SetSize w h) = (Binary32.ofExact e).SetSize (.fin w) (.fin h) := by
  simp only [Binary32.ofExact, UI_2D_Element.SetSize, Binary32.UI_2D_Element.SetSize,
    F32.lt, F32.gt, decide_eq_true_eq, gt_iff_lt]
  congr 1
  · split_ifs <;> rfl
  · split_ifs <;> rfl

/-- The exact embedding agrees with the binary32 one on `HitTest` whenever the two sums
`x + width` and `y + height` are binary32 values, so that adding does not round. -/
theorem ofExact_HitTest (e : UI_2D_Element) (px py : ℚ)
    (hx : F32.round (e.x + e.width) = .fin (e.x + e.width))
    (hy : F32.round (e.y + e.height) = .fin (e.y + e.height)) :
    (Binary32.ofExact e).HitTest (.fin px) (.fin py) = e.HitTest px py := by
  simp only [Binary32.ofExact, Binary32.UI_2D_Element.HitTest, UI_2D_Element.HitTest,
    F32.add, hx, hy, F32.ge, F32.le, ge_iff_le]

/-! ### C1 -/

/-- C1 as stated fails: not every bus state has stored names and handlers to dispatch on.
On the bus of capacity 1 after `EventBus_Subscribe(bus, nullptr, H7)` the stored name is
null and `Trigger("click")` reads through the null pointer in `strcmp` instead of
returning with no call; after `Subscribe("click", nullptr)` it calls through the null
handler. -/
theorem C1_counterexample :
    EventBus.init 1 = .ok ⟨[none], 0, 1⟩
      ∧ EventBus_Subscribe (some ⟨[none], 0, 1⟩) none (some 7)
          = .ok (some ⟨[some ⟨some 7, none⟩], 1, 1⟩)
      ∧ (⟨[some ⟨some 7, none⟩], 1, 1⟩ : EventBus).Trigger (some click) = .error .nullDeref
      ∧ (⟨[some ⟨some 7, none⟩], 1, 1⟩ : EventBus).Trigger (some click)
          ≠ .ok (⟨[some ⟨some 7, none⟩], 1, 1⟩, [])
      ∧ (⟨[none], 0, 1⟩ : EventBus).Subscribe (some click) none
          = .ok ⟨[some ⟨none, some click⟩], 1, 1⟩
      ∧ (⟨[some ⟨none, some click⟩], 1, 1⟩ : EventBus).Trigger (some click)
          = .error .nullDeref := by
  decide

/-- C1, amended: on a bus whose stored entries `ents` (its first `count` slots, in table
order) all have a non-null name, and for a name `n` such that every entry named `n` has a
non-null handler, `Trigger(n)` returns, leaves the bus as it is, and makes exactly one call
`OnEvent(n)` per entry named `n`, on that entry's handler, in stored order. Entries of
another name are skipped whatever their handler pointer; so a handler all of whose entries
carry another name is not called, and with no entry named `n` no call is made. -/
theorem C1_trigger_dispatches_named (b : EventBus) (ents : List (Option Handler × CStr))
    (n : CStr) (hb : b.HoldsNamed ents) (hh : ∀ p ∈ ents, p.2 = n → p.1 ≠ none) :
    ∃ calls, b.Trigger (some n) = .ok (b, calls)
      ∧ calls.map (fun c => (some c.handler, n)) = ents.filter (fun p => decide (p.2 = n))
      ∧ (∀ c ∈ calls, c.name = some n)
      ∧ (∀ h : Handler, (∀ p ∈ ents, p.1 = some h → p.2 ≠ n) → ∀ c ∈ calls, c.handler ≠ h)
      ∧ ((∀ p ∈ ents, p.2 ≠ n) → calls = []) := by
  have hspec := dispatchNamed_spec n ents hh
  refine ⟨dispatchNamed ents n, trigger_named b ents n hb hh, hspec.1, hspec.2, ?_, ?_⟩
  · intro h hnot c hc heq
    have hmem : (some c.handler, n) ∈ (dispatchNamed ents n).map (fun c => (some c.handler, n)) :=
      List.mem_map.mpr ⟨c, hc, rfl⟩
    rw [hspec.1] at hmem
    have hin := (List.mem_filter.mp hmem).1
    exact hnot _ hin (by rw [heq]) rfl
  · intro hno
    have hnil : ents.filter (fun p => decide (p.2 = n)) = [] := by
      simp only [List.filter_eq_nil_iff, decide_eq_true_eq]
      exact hno
    simp [dispatchNamed, hnil]

/-- C1 amended, at a bus with two entries named `"click"` and, between them, an entry named
`"hover"` whose handler pointer is null: `Trigger("click")` calls handlers 1 and 3. -/
theorem C1_trigger_dispatches_named_witness :
    (⟨[entry (some 1, click), entry (none, hover), entry (some 3, click), none], 3, 4⟩ :
        EventBus).HoldsNamed [(some 1, click), (none, hover), (some 3, click)]
      ∧ (∀ p ∈ ([(some 1, click), (none, hover), (some 3, click)] :
            List (Option Handler × CStr)), p.2 = click → p.1 ≠ none)
      ∧ ∃ calls,
          (⟨[entry (some 1, click), entry (none, hover), entry (some 3, click), none], 3, 4⟩ :
              EventBus).Trigger (some click)
            = .ok (⟨[entry (some 1, click), entry (none, hover), entry (some 3, click), none],
                3, 4⟩, calls)
          ∧ calls.map (fun c => (some c.handler, click)) = [(some 1, click), (some 3, click)] :=
  have h := C1_trigger_dispatches_named
    ⟨[entry (some 1, click), entry (none, hover), entry (some 3, click), none], 3, 4⟩
    [(some 1, click), (none, hover), (some 3, click)] click (by decide) (by decide)
  ⟨by decide, by decide, h.choose, h.choose_spec.1, h.choose_spec.2.1⟩

/-! ### C2 -/

/-- C2: for every capacity `c ≥ 0` and every sequence `calls` of `Subscribe` calls with a name
and a non-null handler on the bus made by `EventBus(c)`, the construction and all calls
return, and the bus afterwards has `count = min (number of calls) c`, capacity `c`, and
holds exactly the first `c` calls (all of them when fewer were made), in call order; once at
least `c` calls were made any further `Subscribe` leaves the bus as it is; with `c = 0` the
bus stays the freshly created one. Scenario: capacity 2, `H1` and `H2` on `"click"`, `H3`
on `"hover"`: `H3` is not stored, `Trigger("click")` calls `H1` then `H2`,
`Trigger("hover")` calls nothing. -/
theorem C2_subscribe_capacity :
    (∀ (c : Int), 0 ≤ c → ∀ (calls : List (Handler × CStr)),
      ∃ b0 b, EventBus.init c = .ok b0 ∧ b0.subscribeAll calls = .ok b ∧
        b.count = min (calls.length : Int) c ∧ b.capacity = c ∧
        b.stored = (calls.take c.toNat).map slot ∧
        (c ≤ calls.length → ∀ eventName h, b.Subscribe eventName h = .ok b) ∧
        (c = 0 → b = b0))
      ∧ (∃ b0 b, EventBus.init 2 = .ok b0 ∧
          b0.subscribeAll [(1, click), (2, click), (3, hover)] = .ok b ∧
          b.count = 2 ∧ b.stored = [slot (1, click), slot (2, click)] ∧
          b.Trigger (some click) = .ok (b, [⟨1, some click⟩, ⟨2, some click⟩]) ∧
          b.Trigger (some hover) = .ok (b, [])) := by
  constructor
  · intro c hc calls
    obtain ⟨b, hall, hb, _, hcap, hsame⟩ :=
      subscribeAll_holds calls ⟨List.replicate c.toNat none, 0, c⟩ [] (init_holds c) (by simp)
    simp only [List.nil_append, List.length_nil, Nat.sub_zero] at hb
    have hcap : b.capacity = c := hcap
    refine ⟨_, b, init_ok c hc, hall, ?_, hcap, hb.2, ?_, ?_⟩
    · rw [hb.1, List.length_take]
      omega
    · intro hfull eventName h
      apply subscribe_full
      rw [hcap, hb.1, List.length_take]
      omega
    · intro h0
      exact hsame (by simp [h0])
  · exact ⟨⟨[none, none], 0, 2⟩, ⟨[slot (1, click), slot (2, click)], 2, 2⟩,
      by decide, by decide, by decide, by decide, by decide, by decide⟩

/-- C2, at capacity 1 with two calls: only the first is stored. -/
theorem C2_subscribe_capacity_witness :
    (0 : Int) ≤ 1 ∧
      ∃ b0 b, EventBus.init 1 = .ok b0 ∧ b0.subscribeAll [(1, click), (2, hover)] = .ok b ∧
        b.count = min (([(1, click), (2, hover)] : List (Handler × CStr)).length : Int) 1 ∧
        b.capacity = 1 ∧
        b.stored = (([(1, click), (2, hover)] : List (Handler × CStr)).take (1 : Int).toNat).map slot ∧
        ((1 : Int) ≤ ([(1, click), (2, hover)] : List (Handler × CStr)).length →
          ∀ eventName h, b.Subscribe eventName h = .ok b) ∧
        ((1 : Int) = 0 → b = b0) :=
  ⟨by decide, C2_subscribe_capacity.1 1 (by decide) [(1, click), (2, hover)]⟩

/-! ### C3 -/

/-- C3 as stated fails on each of its three cases. On a fresh bus of capacity 1:
`EventBus_Subscribe` with the empty name and a handler stores the subscription (count 0
becomes 1) and `Trigger("")`, which called nothing before, now calls the handler;
`EventBus_Subscribe` with a null name and a handler stores an entry as well, after which
`Trigger` no longer returns as before; and `EventBus::Subscribe` with a null handler stores
an entry. -/
theorem C3_counterexample :
    EventBus.init 1 = .ok ⟨[none], 0, 1⟩
      ∧ EventBus_Subscribe (some ⟨[none], 0, 1⟩) (some CStr.empty) (some 7)
          = .ok (some ⟨[slot (7, CStr.empty)], 1, 1⟩)
      ∧ (⟨[slot (7, CStr.empty)], 1, 1⟩ : EventBus).stored ≠ (⟨[none], 0, 1⟩ : EventBus).stored
      ∧ (⟨[none], 0, 1⟩ : EventBus).Trigger (some CStr.empty) = .ok (⟨[none], 0, 1⟩, [])
      ∧ (⟨[slot (7, CStr.empty)], 1, 1⟩ : EventBus).Trigger (some CStr.empty)
          = .ok (⟨[slot (7, CStr.empty)], 1, 1⟩, [⟨7, some CStr.empty⟩])
      ∧ EventBus_Subscribe (some ⟨[none], 0, 1⟩) none (some 7)
          = .ok (some ⟨[some ⟨some 7, none⟩], 1, 1⟩)
      ∧ (⟨[some ⟨some 7, none⟩], 1, 1⟩ : EventBus).stored ≠ (⟨[none], 0, 1⟩ : EventBus).stored
      ∧ (⟨[none], 0, 1⟩ : EventBus).Trigger (some click) = .ok (⟨[none], 0, 1⟩, [])
      ∧ (⟨[some ⟨some 7, none⟩], 1, 1⟩ : EventBus).Trigger (some click) = .error .nullDeref
      ∧ (⟨[none], 0, 1⟩ : EventBus).Subscribe (some click) none
          = .ok ⟨[some ⟨none, some click⟩], 1, 1⟩
      ∧ (⟨[some ⟨none, some click⟩], 1, 1⟩ : EventBus).stored
          ≠ (⟨[none], 0, 1⟩ : EventBus).stored := by
  decide

/-- C3, amended: `EventBus_Subscribe` with a null handler, or with no bus, returns and
leaves the bus as it is, so that every later `EventBus_Trigger` dispatches as before. The
empty name is a name like any other: on a bus with a free slot (`0 ≤ count < capacity`, a
table of `capacity` slots), `EventBus_Subscribe` with the empty name and a handler `h`
appends the subscription; and when the stored entries all have a non-null name and those
named `""` a non-null handler, `Trigger("")` then calls `h` after the earlier subscribers
of `""`. -/
theorem C3_subscribe_null_handler_noop :
    (∀ (bus : Option EventBus) (eventName : Option CStr),
        EventBus_Subscribe bus eventName none = .ok bus
        ∧ ∀ bus1, EventBus_Subscribe bus eventName none = .ok bus1 →
            ∀ n, EventBus_Trigger bus1 n = EventBus_Trigger bus n)
      ∧ (∀ (eventName : Option CStr) (handler : Option Handler),
          EventBus_Subscribe none eventName handler = .ok none)
      ∧ (∀ (b : EventBus) (h : Handler), 0 ≤ b.count → b.count < b.capacity →
          b.subscribers.length = b.capacity.toNat →
          ∃ b1, EventBus_Subscribe (some b) (some CStr.empty) (some h) = .ok (some b1)
            ∧ b1.count = b.count + 1 ∧ b1.capacity = b.capacity
            ∧ b1.stored = b.stored ++ [slot (h, CStr.empty)]
            ∧ ∀ ents : List (Option Handler × CStr), b.HoldsNamed ents →
                (∀ p ∈ ents, p.2 = CStr.empty → p.1 ≠ none) →
                b1.Trigger (some CStr.empty)
                  = .ok (b1, dispatchNamed ents CStr.empty ++ [⟨h, some CStr.empty⟩])) := by
  refine ⟨?_, ?_, ?_⟩
  · intro bus eventName
    have h0 : EventBus_Subscribe bus eventName none = .ok bus := by
      cases bus <;> rfl
    refine ⟨h0, ?_⟩
    intro bus1 h1 n
    rw [h0] at h1
    injection h1 with h1
    rw [h1]
  · intro eventName handler
    cases handler <;> rfl
  · intro b h h0 hfree hlen
    obtain ⟨b1, hsub, hc1, hcap1, _, hst1⟩ :=
      subscribe_append b h0 hlen hfree (some CStr.empty) (some h)
    refine ⟨b1, ?_, hc1, hcap1, hst1, ?_⟩
    · simp only [EventBus_Subscribe, hsub]
    · intro ents hb hh
      obtain ⟨b2, hsub2, _, _, _, _, hn2⟩ :=
        subscribe_named b ents hb hlen hfree CStr.empty (some h)
      rw [hsub] at hsub2
      injection hsub2 with hsub2
      subst hsub2
      have hh2 : ∀ p ∈ ents ++ [(some h, CStr.empty)], p.2 = CStr.empty → p.1 ≠ none := by
        intro p hp hpe
        rcases List.mem_append.mp hp with hp | hp
        · exact hh p hp hpe
        · simp only [List.mem_singleton] at hp
          rw [hp]
          simp
      rw [trigger_named b1 _ CStr.empty hn2 hh2]
      simp [dispatchNamed, List.filter_append, List.filterMap_append]

/-- C3 amended, at a bus of capacity 3 that already holds an entry named `"hover"` with a
null handler: the empty-name subscription of handler 7 is appended and dispatched. -/
theorem C3_subscribe_null_handler_noop_witness :
    (0 : Int) ≤ (⟨[entry (none, hover), none, none], 1, 3⟩ : EventBus).count
      ∧ (⟨[entry (none, hover), none, none], 1, 3⟩ : EventBus).count
          < (⟨[entry (none, hover), none, none], 1, 3⟩ : EventBus).capacity
      ∧ (⟨[entry (none, hover), none, none], 1, 3⟩ : EventBus).subscribers.length
          = (⟨[entry (none, hover), none, none], 1, 3⟩ : EventBus).capacity.toNat
      ∧ ∃ b1, EventBus_Subscribe (some ⟨[entry (none, hover), none, none], 1, 3⟩)
            (some CStr.empty) (some 7) = .ok (some b1)
          ∧ b1.count = 2
          ∧ b1.Trigger (some CStr.empty) = .ok (b1, [⟨7, some CStr.empty⟩]) :=
  have h := C3_subscribe_null_handler_noop.2.2 ⟨[entry (none, hover), none, none], 1, 3⟩ 7
    (by decide) (by decide) (by decide)
  ⟨by decide, by decide, by decide, h.choose, h.choose_spec.1, h.choose_spec.2.1,
    h.choose_spec.2.2.2.2 [(none, hover)] (by decide) (by decide)⟩

/-! ### C4 -/

/-- C4: when `width_min ≤ width_max` and `height_min ≤ height_max`, after `SetSize(w, h)`
the stored width is `clamp(w, width_min, width_max) = max(width_min, min(w, width_max))`
and lies between the width bounds, the stored height is `clamp(h, height_min, height_max)`
and lies between the height bounds, and neither stored dimension depends on the other
argument. -/
theorem C4_setsize_clamps (e : UI_2D_Element) (w h : ℚ)
    (hw : e.width_min ≤ e.width_max) (hh : e.height_min ≤ e.height_max) :
    (e.SetSize w h).width = clamp w e.width_min e.width_max
      ∧ (e.SetSize w h).width = max e.width_min (min w e.width_max)
      ∧ (e.SetSize w h).width_min ≤ (e.SetSize w h).width
      ∧ (e.SetSize w h).width ≤ (e.SetSize w h).width_max
      ∧ (e.SetSize w h).height = clamp h e.height_min e.height_max
      ∧ (e.SetSize w h).height = max e.height_min (min h e.height_max)
      ∧ (e.SetSize w h).height_min ≤ (e.SetSize w h).height
      ∧ (e.SetSize w h).height ≤ (e.SetSize w h).height_max
      ∧ (∀ h1, (e.SetSize w h1).width = (e.SetSize w h).width)
      ∧ (∀ w1, (e.SetSize w1 h).height = (e.SetSize w h).height) := by
  have key : ∀ v lo hi : ℚ, lo ≤ hi →
      (if v < lo then lo else (if v > hi then hi else v)) = max lo (min v hi)
        ∧ lo ≤ (if v < lo then lo else (if v > hi then hi else v))
        ∧ (if v < lo then lo else (if v > hi then hi else v)) ≤ hi := by
    intro v lo hi hle
    by_cases h1 : v < lo
    · rw [if_pos h1]
      refine ⟨?_, le_refl _, hle⟩
      rw [min_eq_left (by linarith), max_eq_left (by linarith)]
    · rw [if_neg h1]
      by_cases h2 : v > hi
      · rw [if_pos h2]
        refine ⟨?_, hle, le_refl _⟩
        rw [min_eq_right (by linarith), max_eq_right hle]
      · rw [if_neg h2]
        refine ⟨?_, by linarith, by linarith⟩
        rw [min_eq_left (by linarith), max_eq_right (by linarith)]
  obtain ⟨kw1, kw2, kw3⟩ := key w e.width_min e.width_max hw
  obtain ⟨kh1, kh2, kh3⟩ := key h e.height_min e.height_max hh
  exact ⟨kw1, kw1, kw2, kw3, kh1, kh1, kh2, kh3, fun _ => rfl, fun _ => rfl⟩

/-- C4, at the default element with `SetSize(5, 200000)`: width 5, height 100000. -/
theorem C4_setsize_clamps_witness :
    UI_2D_Element.init.width_min ≤ UI_2D_Element.init.width_max
      ∧ UI_2D_Element.init.height_min ≤ UI_2D_Element.init.height_max
      ∧ (UI_2D_Element.init.SetSize 5 200000).width
          = clamp 5 UI_2D_Element.init.width_min UI_2D_Element.init.width_max
      ∧ (UI_2D_Element.init.SetSize 5 200000).height
          = clamp 200000 UI_2D_Element.init.height_min UI_2D_Element.init.height_max :=
  have h := C4_setsize_clamps UI_2D_Element.init 5 200000
    (by norm_num [UI_2D_Element.init]) (by norm_num [UI_2D_Element.init])
  ⟨by norm_num [UI_2D_Element.init], by norm_num [UI_2D_Element.init], h.1, h.2.2.2.2.1⟩

/-! ### C5 -/

/-- C5 as stated fails, because the code compares against the rounded binary32 sums. The
element after `SetSize(1, 1)` and `SetPosition(0.1f, 0)` is visible and available with
`x = 0.1f` and `width = 1`; `HitTest(1.1f, 0)` returns true, since `0.1f + 1` rounds up to
`1.1f`, although `1.1f ≤ 0.1f + 1` is false of the exact values. -/
theorem C5_counterexample :
    F32.round (13421773 / 134217728) = F32.tenth
      ∧ F32.round (9227469 / 8388608) = F32.elevenTenths
      ∧ Binary32.tenthElement.isVisible = true ∧ Binary32.tenthElement.isAvailable = true
      ∧ Binary32.tenthElement.x = .fin (13421773 / 134217728)
      ∧ Binary32.tenthElement.width = .fin 1
      ∧ Binary32.tenthElement.HitTest (.fin (9227469 / 8388608)) (.fin 0) = true
      ∧ ¬ ((9227469 / 8388608 : ℚ) ≤ 13421773 / 134217728 + 1) := by
  have hr1 : F32.round (13421773 / 134217728) = F32.tenth := by
    rw [f32_round_eval _ (-4) 13421773 (by norm_num) (by norm_num) (by norm_num) (by norm_num)
      (by norm_num) (by norm_num) (by norm_num)]
    norm_num [F32.tenth]
  have hr2 : F32.round (9227469 / 8388608) = F32.elevenTenths := by
    rw [f32_round_eval _ 0 9227469 (by norm_num) (by norm_num) (by norm_num) (by norm_num)
      (by norm_num) (by norm_num) (by norm_num)]
    norm_num [F32.elevenTenths]
  have hsum : F32.round (13421773 / 134217728 + 1) = .fin (9227469 / 8388608) := by
    rw [f32_round_eval _ 0 9227469 (by norm_num) (by norm_num) (by norm_num) (by norm_num)
      (by norm_num) (by norm_num) (by norm_num)]
    norm_num
  have hone : F32.round (0 + 1) = .fin 1 := by
    rw [f32_round_eval _ 0 8388608 (by norm_num) (by norm_num) (by norm_num) (by norm_num)
      (by norm_num) (by norm_num) (by norm_num)]
    norm_num
  have hw : Binary32.tenthElement.width = .fin 1 := by
    simp [Binary32.tenthElement, Binary32.UI_2D_Element.SetPosition,
      Binary32.UI_2D_Element.SetSize, Binary32.UI_2D_Element.init, F32.lt, F32.gt]
  have hh : Binary32.tenthElement.height = .fin 1 := by
    simp [Binary32.tenthElement, Binary32.UI_2D_Element.SetPosition,
      Binary32.UI_2D_Element.SetSize, Binary32.UI_2D_Element.init, F32.lt, F32.gt]
  have hx : Binary32.tenthElement.x = .fin (13421773 / 134217728) := rfl
  have hy : Binary32.tenthElement.y = .fin 0 := rfl
  refine ⟨hr1, hr2, rfl, rfl, hx, hw, ?_, by norm_num⟩
  have hv : Binary32.tenthElement.isVisible = true := rfl
  have ha : Binary32.tenthElement.isAvailable = true := rfl
  simp only [Binary32.UI_2D_Element.HitTest, hv, ha, hx, hy, hw, hh, F32.add, hsum, hone,
    F32.ge, F32.le]
  norm_num

/-- C5, amended: `HitTest(px, py)` is true exactly when the element is visible and
available and `x <= px`, `px <= x + width`, `y <= py`, `py <= y + height` hold as the code
evaluates them: `+` is the binary32 sum, rounded to nearest, and a comparison with a NaN
operand is false. So with either flag false it is false at every point. When all values
are finite and the two sums are binary32 values themselves (no rounding), this is the
inclusive rectangle test on the exact values. -/
theorem C5_hittest_iff_binary32 (e : Binary32.UI_2D_Element) (px py : F32) :
    (e.HitTest px py = true ↔
        e.isVisible = true ∧ e.isAvailable = true ∧
          F32.le e.x px = true ∧ F32.le px (F32.add e.x e.width) = true ∧
          F32.le e.y py = true ∧ F32.le py (F32.add e.y e.height) = true)
      ∧ ((e.isVisible = false ∨ e.isAvailable = false) → e.HitTest px py = false)
      ∧ (∀ x w y h p q : ℚ, e.x = .fin x → e.width = .fin w → e.y = .fin y →
          e.height = .fin h → px = .fin p → py = .fin q →
          F32.round (x + w) = .fin (x + w) → F32.round (y + h) = .fin (y + h) →
          (e.HitTest px py = true ↔
            e.isVisible = true ∧ e.isAvailable = true ∧
              x ≤ p ∧ p ≤ x + w ∧ y ≤ q ∧ q ≤ y + h)) := by
  refine ⟨?_, ?_, ?_⟩
  · simp only [Binary32.UI_2D_Element.HitTest, Bool.and_eq_true, F32.ge]
    tauto
  · intro hf
    rcases hf with hf | hf <;> simp [Binary32.UI_2D_Element.HitTest, hf]
  · intro x w y h p q hx hw hy hh hp hq hrx hry
    simp only [Binary32.UI_2D_Element.HitTest, Bool.and_eq_true, F32.ge, hx, hw, hy, hh, hp,
      hq, F32.add, hrx, hry, F32.le, decide_eq_true_eq]
    tauto

/-! ### C6 -/

/-- C6: from the default element, `SetMinSize(10, 10)`, `SetMaxSize(50, 50)`,
`SetSize(5, 100)` store the size (10, 50); after `SetPosition(0, 0)`, `HitTest(10, 50)` is
true and `HitTest(10.01, 50)` is false. -/
theorem C6_element_scenario :
    ((((UI_2D_Element.init.SetMinSize 10 10).SetMaxSize 50 50).SetSize 5 100).width = 10)
      ∧ ((((UI_2D_Element.init.SetMinSize 10 10).SetMaxSize 50 50).SetSize 5 100).height = 50)
      ∧ (((((UI_2D_Element.init.SetMinSize 10 10).SetMaxSize 50 50).SetSize 5 100).SetPosition
            0 0).HitTest 10 50 = true)
      ∧ (((((UI_2D_Element.init.SetMinSize 10 10).SetMaxSize 50 50).SetSize 5 100).SetPosition
            0 0).HitTest (1001 / 100) 50 = false) := by
  norm_num [UI_2D_Element.init, UI_2D_Element.SetMinSize, UI_2D_Element.SetMaxSize,
    UI_2D_Element.SetSize, UI_2D_Element.SetPosition, UI_2D_Element.HitTest]

/-! ### C7 -/

/-- C7: for every element, padding tag, value and point, `HitTest` after `SetPadding` gives
what it gave before; and an element whose four padding scalars are replaced by any other
four values gives the same `HitTest` result at every point. -/
theorem C7_padding_not_in_hittest (e : UI_2D_Element) (padding : Padding) (v : ℚ) (px py : ℚ) :
    (e.SetPadding padding v).HitTest px py = e.HitTest px py
      ∧ ∀ l r t b : ℚ,
          ({ e with padding_left := l, padding_right := r, padding_top := t,
                    padding_bottom := b } : UI_2D_Element).HitTest px py = e.HitTest px py := by
  constructor
  · unfold UI_2D_Element.SetPadding
    split_ifs <;> rfl
  · intro l r t b
    rfl

/-! ### C8 -/

/-- C8: `SetPadding` with tag left (0), right (1), top (2) or bottom (3) stores the value in
that padding scalar and changes no other field; with any other tag value the element is
unchanged. -/
theorem C8_setpadding_one_scalar (e : UI_2D_Element) (v : ℚ) :
    e.SetPadding Padding.left v = { e with padding_left := v }
      ∧ e.SetPadding Padding.right v = { e with padding_right := v }
      ∧ e.SetPadding Padding.top v = { e with padding_top := v }
      ∧ e.SetPadding Padding.bottom v = { e with padding_bottom := v }
      ∧ e.SetPadding 0 v = e.SetPadding Padding.left v
      ∧ e.SetPadding 1 v = e.SetPadding Padding.right v
      ∧ e.SetPadding 2 v = e.SetPadding Padding.top v
      ∧ e.SetPadding 3 v = e.SetPadding Padding.bottom v
      ∧ ∀ tag : Int, (tag < 0 ∨ 3 < tag) → e.SetPadding tag v = e := by
  refine ⟨by simp [UI_2D_Element.SetPadding], ?_, ?_, ?_, rfl, rfl, rfl, rfl, ?_⟩
  · simp [UI_2D_Element.SetPadding, Padding.left, Padding.right]
  · simp [UI_2D_Element.SetPadding, Padding.left, Padding.right, Padding.top]
  · simp [UI_2D_Element.SetPadding, Padding.left, Padding.right, Padding.top, Padding.bottom]
  · intro tag htag
    unfold UI_2D_Element.SetPadding Padding.left Padding.right Padding.top Padding.bottom
    have h0 : ¬ tag = (0 : Int) := by omega
    have h1 : ¬ tag = (1 : Int) := by omega
    have h2 : ¬ tag = (2 : Int) := by omega
    have h3 : ¬ tag = (3 : Int) := by omega
    rw [if_neg h0, if_neg h1, if_neg h2, if_neg h3]

/-! ### C9 -/

/-- C9: for every element, whatever its bounds, and all `w`, `h`, calling `SetSize(w, h)`
twice in a row gives the same element as calling it once. -/
theorem C9_setsize_idempotent (e : UI_2D_Element) (w h : ℚ) :
    (e.SetSize w h).SetSize w h = e.SetSize w h := by
  rfl

/-! ### C10 -/

theorem run_boundsOk (ops : List Setter) :
    ∀ e : UI_2D_Element, e.BoundsOk → e.KeepsBounds ops → (e.run ops).BoundsOk := by
  induction ops with
  | nil => intro e he _; exact he
  | cons op ops ih =>
    intro e he hk
    obtain ⟨hop, hrest⟩ := hk
    apply ih _ _ hrest
    cases op with
    | SetMinSize w h => exact hop
    | SetMaxSize w h => exact hop
    | SetSize w h => exact he
    | SetPosition x y => exact he
    | SetPadding p v =>
      simp only [Setter.apply, UI_2D_Element.SetPadding, UI_2D_Element.BoundsOk]
      split_ifs <;> exact he
    | SetVisible b => exact he
    | SetAvailable b => exact he
    | SetEventHandler h => exact he

/-- C10 as stated fails: from the default element, `SetMinSize(10, 10)` then
`SetMaxSize(5, 5)` reach a state with `width_min = 10 > 5 = width_max`. -/
theorem C10_counterexample :
    ¬ (UI_2D_Element.init.run [Setter.SetMinSize 10 10, Setter.SetMaxSize 5 5]).BoundsOk := by
  norm_num [UI_2D_Element.run, Setter.apply, UI_2D_Element.init, UI_2D_Element.SetMinSize,
    UI_2D_Element.SetMaxSize, UI_2D_Element.BoundsOk]

/-- C10, amended: the default element satisfies `width_min ≤ width_max` and
`height_min ≤ height_max`, and so does every state reached from it by a sequence of public
setter calls in which each `SetMinSize(w, h)` is made with `w ≤ width_max`, `h ≤ height_max`
and each `SetMaxSize(w, h)` with `width_min ≤ w`, `height_min ≤ h` (bounds read at the time
of the call). -/
theorem C10_bounds_invariant (ops : List Setter) (hk : UI_2D_Element.init.KeepsBounds ops) :
    UI_2D_Element.init.BoundsOk ∧ (UI_2D_Element.init.run ops).BoundsOk := by
  have h0 : UI_2D_Element.init.BoundsOk := by
    norm_num [UI_2D_Element.init, UI_2D_Element.BoundsOk]
  exact ⟨h0, run_boundsOk ops _ h0 hk⟩

/-- C10 amended, at a sequence that uses every setter. -/
theorem C10_bounds_invariant_witness :
    UI_2D_Element.init.KeepsBounds
        [Setter.SetMinSize 10 10, Setter.SetMaxSize 50 50, Setter.SetSize 5 100,
          Setter.SetPosition 0 0, Setter.SetPadding Padding.top 4, Setter.SetVisible false,
          Setter.SetAvailable false, Setter.SetEventHandler (some 1)]
      ∧ (UI_2D_Element.init.run
          [Setter.SetMinSize 10 10, Setter.SetMaxSize 50 50, Setter.SetSize 5 100,
            Setter.SetPosition 0 0, Setter.SetPadding Padding.top 4, Setter.SetVisible false,
            Setter.SetAvailable false, Setter.SetEventHandler (some 1)]).BoundsOk :=
  have hk : UI_2D_Element.init.KeepsBounds
      [Setter.SetMinSize 10 10, Setter.SetMaxSize 50 50, Setter.SetSize 5 100,
        Setter.SetPosition 0 0, Setter.SetPadding Padding.top 4, Setter.SetVisible false,
        Setter.SetAvailable false, Setter.SetEventHandler (some 1)] := by
    norm_num [UI_2D_Element.KeepsBounds, Setter.apply, UI_2D_Element.init,
      UI_2D_Element.SetMinSize, UI_2D_Element.SetMaxSize, UI_2D_Element.SetSize]
  ⟨hk, (C10_bounds_invariant _ hk).2⟩

/-! ### C11 -/

/-- C11: a default-constructed element has min size (1, 1), max size (100000, 100000),
size (0, 0), position (0, 0), all four paddings 0, visible and available true, stretch mode
`None`, no handler, id 0, and hovered, pressed and focused false. -/
theorem C11_default_element :
    UI_2D_Element.init.width_min = 1 ∧ UI_2D_Element.init.height_min = 1
      ∧ UI_2D_Element.init.width_max = 100000 ∧ UI_2D_Element.init.height_max = 100000
      ∧ UI_2D_Element.init.width = 0 ∧ UI_2D_Element.init.height = 0
      ∧ UI_2D_Element.init.x = 0 ∧ UI_2D_Element.init.y = 0
      ∧ UI_2D_Element.init.padding_left = 0 ∧ UI_2D_Element.init.padding_right = 0
      ∧ UI_2D_Element.init.padding_top = 0 ∧ UI_2D_Element.init.padding_bottom = 0
      ∧ UI_2D_Element.init.isVisible = true ∧ UI_2D_Element.init.isAvailable = true
      ∧ UI_2D_Element.init.Stretch_Mode_ = StretchMode.None
      ∧ UI_2D_Element.init.handler = none
      ∧ UI_2D_Element.init.elementId = 0
      ∧ UI_2D_Element.init.hovered = false ∧ UI_2D_Element.init.pressed = false
      ∧ UI_2D_Element.init.isFocused = false := by
  simp [UI_2D_Element.init]

/-! ### C12 -/

theorem trigger_state (b b1 : EventBus) (n : Option CStr) (calls : List Call)
    (h : b.Trigger n = .ok (b1, calls)) : b1 = b := by
  unfold EventBus.Trigger at h
  split at h
  · injection h with h
    injection h with h1 _
    exact h1.symm
  · cases h

theorem init_inv (c : Int) (hc : 0 ≤ c) :
    (⟨List.replicate c.toNat none, 0, c⟩ : EventBus).Inv := by
  refine ⟨le_refl _, hc, by simp, ?_⟩
  intro k hk
  simp at hk

theorem subscribe_inv (b : EventBus) (hb : b.Inv) (n : Option CStr) (h : Option Handler) :
    ∃ b1, b.Subscribe n h = .ok b1 ∧ b1.Inv ∧ b1.capacity = b.capacity := by
  obtain ⟨h0, hcap, hlen, hinit⟩ := hb
  by_cases hfree : b.count < b.capacity
  · have hin : 0 ≤ b.count ∧ b.count.toNat < b.subscribers.length := by
      constructor
      · exact h0
      · rw [hlen]; omega
    refine ⟨⟨b.subscribers.set b.count.toNat (some ⟨h, n⟩), b.count + 1, b.capacity⟩,
      ?_, ⟨?_, ?_, ?_, ?_⟩, rfl⟩
    · unfold EventBus.Subscribe
      rw [if_pos hfree, if_pos hin]
    · show 0 ≤ b.count + 1
      omega
    · show b.count + 1 ≤ b.capacity
      omega
    · simpa using hlen
    · intro k hk
      have hk1 : k < b.count.toNat + 1 := by
        have : (b.count + 1).toNat = b.count.toNat + 1 := by omega
        rw [← this]; exact hk
      show (b.subscribers.set b.count.toNat (some ⟨h, n⟩)).getD k none ≠ none
      rw [List.getD_eq_getElem?_getD]
      by_cases hkc : k = b.count.toNat
      · subst hkc
        rw [List.getElem?_set_self hin.2]
        simp
      · rw [List.getElem?_set_ne (fun e => hkc e.symm), ← List.getD_eq_getElem?_getD]
        exact hinit k (by omega)
  · refine ⟨b, ?_, ⟨h0, hcap, hlen, hinit⟩, rfl⟩
    exact subscribe_full b (by omega) n h

theorem trigger_loop_no_index_fault (b : EventBus) (hb : b.Inv) (n : Option CStr) :
    ∀ (fuel k : Nat) (calls : List Call), k + fuel = b.count.toNat →
      ∀ f, EventBus.Trigger.loop b n fuel (k : Int) calls = .error f → f.isIndexFault = false := by
  obtain ⟨h0, hcap, hlen, hinit⟩ := hb
  intro fuel
  induction fuel with
  | zero =>
    intro k calls hk f hf
    unfold EventBus.Trigger.loop at hf
    rw [if_neg (by omega)] at hf
    cases hf
  | succ fuel ih =>
    intro k calls hk f hf
    have hcast : ((k : Int) + 1) = ((k + 1 : Nat) : Int) := by push_cast; rfl
    have h1 : (k : Int) < b.count := by omega
    have h2 : 0 ≤ (k : Int) ∧ (k : Int).toNat < b.subscribers.length := by
      constructor
      · omega
      · rw [hlen]; simp; omega
    unfold EventBus.Trigger.loop at hf
    rw [if_pos h1, if_pos h2] at hf
    have hk1 : k < b.count.toNat := by omega
    have hne := hinit k hk1
    simp only [Int.toNat_ofNat] at hf
    split at hf
    · rename_i heq
      exact absurd heq hne
    · split at hf
      · split at hf
        · split at hf
          · injection hf with hf
            rw [← hf]; rfl
          · rw [hcast] at hf
            exact ih (k + 1) _ (by omega) f hf
        · rw [hcast] at hf
          exact ih (k + 1) _ (by omega) f hf
      · injection hf with hf
        rw [← hf]; rfl

theorem trigger_no_index_fault (b : EventBus) (hb : b.Inv) (n : Option CStr) (f : Fault)
    (hf : b.Trigger n = .error f) : f.isIndexFault = false := by
  unfold EventBus.Trigger at hf
  split at hf
  · cases hf
  · rename_i f1 hloop
    injection hf with hf
    subst hf
    have h := trigger_loop_no_index_fault b hb n b.count.toNat 0 [] (by simp) f1
    exact h hloop

theorem run_inv (ops : List BusOp) :
    ∀ (b b1 : EventBus), b.Inv → b.run ops = .ok b1 → b1.Inv ∧ b1.capacity = b.capacity := by
  induction ops with
  | nil =>
    intro b b1 hb hrun
    injection hrun with hrun
    subst hrun
    exact ⟨hb, rfl⟩
  | cons op ops ih =>
    intro b b1 hb hrun
    unfold EventBus.run at hrun
    split at hrun
    · rename_i b2 hop
      have hb2 : b2.Inv ∧ b2.capacity = b.capacity := by
        cases op with
        | Subscribe n h =>
          obtain ⟨b3, hs, hinv, hcap⟩ := subscribe_inv b hb n h
          simp only [BusOp.apply] at hop
          rw [hs] at hop
          injection hop with hop
          subst hop
          exact ⟨hinv, hcap⟩
        | Trigger n =>
          simp only [BusOp.apply] at hop
          split at hop
          · rename_i b3 calls ht
            injection hop with hop
            subst hop
            have := trigger_state b b3 n calls ht
            subst this
            exact ⟨hb, rfl⟩
          · cases hop
      obtain ⟨hinv, hcap⟩ := ih b2 b1 hb2.1 hrun
      exact ⟨hinv, by rw [hcap, hb2.2]⟩
    · cases hrun

theorem run_nonnull_returns (ops : List BusOp) :
    ∀ (b : EventBus) (subs : List (Handler × CStr)), b.Holds subs →
      b.subscribers.length = b.capacity.toNat → (∀ op ∈ ops, op.NonNull) →
      ∃ b1, b.run ops = .ok b1 := by
  induction ops with
  | nil =>
    intro b subs _ _ _
    exact ⟨b, rfl⟩
  | cons op ops ih =>
    intro b subs hb hlen hops
    have hop : op.NonNull := hops op (by simp)
    have hrest : ∀ o ∈ ops, o.NonNull := fun o ho => hops o (by simp [ho])
    cases op with
    | Subscribe n h =>
      obtain ⟨hn, hh⟩ := hop
      obtain ⟨n1, rfl⟩ := Option.ne_none_iff_exists'.mp hn
      obtain ⟨h1, rfl⟩ := Option.ne_none_iff_exists'.mp hh
      by_cases hfree : b.count < b.capacity
      · obtain ⟨b1, hs, hb1, hlen1, _⟩ := subscribe_free b subs hb hlen hfree (h1, n1)
        obtain ⟨b2, hrun⟩ := ih b1 _ hb1 hlen1 hrest
        exact ⟨b2, by simp only [EventBus.run, BusOp.apply, hs, hrun]⟩
      · have hs := subscribe_full b (by omega) (some n1) (some h1)
        obtain ⟨b2, hrun⟩ := ih b subs hb hlen hrest
        exact ⟨b2, by simp only [EventBus.run, BusOp.apply, hs, hrun]⟩
    | Trigger n =>
      obtain ⟨n1, rfl⟩ := Option.ne_none_iff_exists'.mp hop
      have ht := trigger_holds b subs n1 hb
      obtain ⟨b2, hrun⟩ := ih b subs hb hlen hrest
      exact ⟨b2, by simp only [EventBus.run, BusOp.apply, ht, hrun]⟩

/-- C12: for every capacity `c ≥ 0` and every sequence of `Subscribe` and `Trigger` calls
(with any arguments) from `EventBus(c)`, a bus state the sequence reaches has
`0 ≤ count ≤ capacity`, `capacity = c` and a table of `c` slots; so the index `count`
that a further `Subscribe` writes and every index `0 ≤ i < count` that a further `Trigger`
reads lie inside the table, `Subscribe` returns, and `Trigger` makes no access outside the
written part of the table. When all pointer arguments of the sequence are non-null, the
sequence does reach a state. -/
theorem C12_count_invariant (c : Int) (hc : 0 ≤ c) (ops : List BusOp) :
    (∀ b, EventBus.reach c ops = .ok b →
        0 ≤ b.count ∧ b.count ≤ b.capacity ∧ b.capacity = c
          ∧ b.subscribers.length = c.toNat
          ∧ (b.count < b.capacity → b.count.toNat < b.subscribers.length)
          ∧ (∀ i : Int, 0 ≤ i → i < b.count → i.toNat < b.subscribers.length)
          ∧ (∀ eventName h, ∃ b1, b.Subscribe eventName h = .ok b1)
          ∧ (∀ eventName f, b.Trigger eventName = .error f → f.isIndexFault = false))
      ∧ ((∀ op ∈ ops, op.NonNull) → ∃ b, EventBus.reach c ops = .ok b) := by
  have hinit := init_ok c hc
  constructor
  · intro b hreach
    simp only [EventBus.reach, hinit] at hreach
    obtain ⟨hinv, hcap⟩ := run_inv ops _ b (init_inv c hc) hreach
    have hcap : b.capacity = c := hcap
    have hinv1 := hinv
    obtain ⟨h0, hle, hlen, _⟩ := hinv1
    refine ⟨h0, hle, hcap, by rw [hlen, hcap], ?_, ?_, ?_, ?_⟩
    · intro hfree
      rw [hlen]; omega
    · intro i hi0 hi
      rw [hlen]; omega
    · intro eventName h
      obtain ⟨b1, hs, _⟩ := subscribe_inv b hinv eventName h
      exact ⟨b1, hs⟩
    · intro eventName f hf
      exact trigger_no_index_fault b hinv eventName f hf
  · intro hops
    obtain ⟨b, hrun⟩ := run_nonnull_returns ops _ [] (init_holds c) (by simp) hops
    exact ⟨b, by simp only [EventBus.reach, hinit, hrun]⟩

/-- C12, at capacity 2 with three `Subscribe` calls and a `Trigger` call: the bus reached
has count 2. -/
theorem C12_count_invariant_witness :
    (0 : Int) ≤ 2
      ∧ EventBus.reach 2
          [BusOp.Subscribe (some click) (some 1), BusOp.Trigger (some click),
            BusOp.Subscribe (some hover) (some 2), BusOp.Subscribe (some click) (some 3)]
          = .ok ⟨[slot (1, click), slot (2, hover)], 2, 2⟩
      ∧ (0 : Int) ≤ (⟨[slot (1, click), slot (2, hover)], 2, 2⟩ : EventBus).count
      ∧ (⟨[slot (1, click), slot (2, hover)], 2, 2⟩ : EventBus).count
          ≤ (⟨[slot (1, click), slot (2, hover)], 2, 2⟩ : EventBus).capacity :=
  have h := (C12_count_invariant 2 (by decide)
    [BusOp.Subscribe (some click) (some 1), BusOp.Trigger (some click),
      BusOp.Subscribe (some hover) (some 2), BusOp.Subscribe (some click) (some 3)]).1
    ⟨[slot (1, click), slot (2, hover)], 2, 2⟩ (by decide)
  ⟨by decide, by decide, h.1, h.2.1⟩

/-! ### C13 -/

theorem run_append (ops1 ops2 : List Setter) :
    ∀ e : UI_2D_Element, e.run (ops1 ++ ops2) = (e.run ops1).run ops2 := by
  induction ops1 with
  | nil => intro e; rfl
  | cons op ops ih => intro e; exact ih (op.apply e)

theorem apply_handler (op : Setter) (e : UI_2D_Element) (hop : op.isSetEventHandler = false) :
    (op.apply e).handler = e.handler := by
  cases op with
  | SetEventHandler h => simp [Setter.isSetEventHandler] at hop
  | SetPadding p v =>
    simp only [Setter.apply, UI_2D_Element.SetPadding]
    split_ifs <;> rfl
  | _ => rfl

theorem run_handler (ops : List Setter) :
    ∀ e : UI_2D_Element, (∀ op ∈ ops, op.isSetEventHandler = false) →
      (e.run ops).handler = e.handler := by
  induction ops with
  | nil => intro e _; rfl
  | cons op ops ih =>
    intro e hops
    have h1 := ih (op.apply e) (fun o ho => hops o (by simp [ho]))
    have h2 := apply_handler op e (hops op (by simp))
    exact h1.trans h2

/-- C13: `TriggerEvent(n)` changes no field of the element; with a handler attached it
makes exactly one call, `OnEvent(n)` on that handler, and with none attached it makes no
call. `SetEventHandler(h)` makes `h` the held handler (null clears it), the default
element holds none, and after any sequence of setter calls the held handler is the argument
of the last `SetEventHandler` call in it (the earlier one when the sequence has none). -/
theorem C13_event_forwarding (e : UI_2D_Element) (n : Option CStr) :
    (e.TriggerEvent n).1 = e
      ∧ (∀ h : Handler, e.handler = some h → (e.TriggerEvent n).2 = [⟨h, n⟩])
      ∧ (e.handler = none → (e.TriggerEvent n).2 = [])
      ∧ (∀ h : Option Handler, (e.SetEventHandler h).handler = h)
      ∧ (∀ h : Handler, ((e.SetEventHandler (some h)).TriggerEvent n).2 = [⟨h, n⟩])
      ∧ ((e.SetEventHandler none).TriggerEvent n).2 = []
      ∧ UI_2D_Element.init.handler = none
      ∧ (UI_2D_Element.init.TriggerEvent n).2 = []
      ∧ (∀ (ops1 ops2 : List Setter) (h : Option Handler),
          (∀ op ∈ ops2, op.isSetEventHandler = false) →
            (e.run (ops1 ++ Setter.SetEventHandler h :: ops2)).handler = h)
      ∧ (∀ ops : List Setter, (∀ op ∈ ops, op.isSetEventHandler = false) →
            (e.run ops).handler = e.handler) := by
  refine ⟨?_, ?_, ?_, fun _ => rfl, fun _ => rfl, rfl, rfl, rfl, ?_, ?_⟩
  · unfold UI_2D_Element.TriggerEvent
    cases e.handler <;> rfl
  · intro h hh
    unfold UI_2D_Element.TriggerEvent
    rw [hh]
  · intro hh
    unfold UI_2D_Element.TriggerEvent
    rw [hh]
  · intro ops1 ops2 h hops
    rw [run_append]
    show (((e.run ops1).SetEventHandler h).run ops2).handler = h
    rw [run_handler ops2 _ hops]
    rfl
  · intro ops hops
    exact run_handler ops e hops

/-! ### C14 -/

theorem dispatchNamed_append (ents1 ents2 : List (Option Handler × CStr)) (n : CStr) :
    dispatchNamed (ents1 ++ ents2) n = dispatchNamed ents1 n ++ dispatchNamed ents2 n := by
  simp [dispatchNamed, List.filter_append, List.filterMap_append]

/-- C14 as stated fails: a bus with two free slots need not be one `Trigger` can run on.
On the bus of capacity 3 after `EventBus_Subscribe(bus, nullptr, H7)`, two
`Subscribe("click", H1)` calls do append two entries, but `Trigger("click")` reads through
the null stored name both before and after them, so no count of calls on `H1` grows by
two. -/
theorem C14_counterexample :
    EventBus.init 3 = .ok ⟨[none, none, none], 0, 3⟩
      ∧ EventBus_Subscribe (some ⟨[none, none, none], 0, 3⟩) none (some 7)
          = .ok (some ⟨[some ⟨some 7, none⟩, none, none], 1, 3⟩)
      ∧ (⟨[some ⟨some 7, none⟩, none, none], 1, 3⟩ : EventBus).count + 2
          ≤ (⟨[some ⟨some 7, none⟩, none, none], 1, 3⟩ : EventBus).capacity
      ∧ (⟨[some ⟨some 7, none⟩, none, none], 1, 3⟩ : EventBus).Subscribe (some click) (some 1)
          = .ok ⟨[some ⟨some 7, none⟩, slot (1, click), none], 2, 3⟩
      ∧ (⟨[some ⟨some 7, none⟩, slot (1, click), none], 2, 3⟩ : EventBus).Subscribe
            (some click) (some 1)
          = .ok ⟨[some ⟨some 7, none⟩, slot (1, click), slot (1, click)], 3, 3⟩
      ∧ (⟨[some ⟨some 7, none⟩, none, none], 1, 3⟩ : EventBus).Trigger (some click)
          = .error .nullDeref
      ∧ (⟨[some ⟨some 7, none⟩, slot (1, click), slot (1, click)], 3, 3⟩ : EventBus).Trigger
            (some click)
          = .error .nullDeref := by
  decide

/-- C14, amended: on a bus with at least two free slots (`0 ≤ count`,
`count + 2 ≤ capacity`, a table of `capacity` slots), two `Subscribe(n, h)` calls both
return and append two equal entries (count grows by 2). When moreover the stored entries
`ents` all have a non-null name and those named `n` a non-null handler, `Trigger(n)` returns
before and after, and afterwards makes the calls it made before followed by two more
`OnEvent(n)` calls on `h`: `h` is called exactly two more times. -/
theorem C14_no_duplicate_detection (b : EventBus) (n : CStr) (h : Handler)
    (h0 : 0 ≤ b.count) (hlen : b.subscribers.length = b.capacity.toNat)
    (hfree : b.count + 2 ≤ b.capacity) :
    ∃ b1 b2, b.Subscribe (some n) (some h) = .ok b1
      ∧ b1.Subscribe (some n) (some h) = .ok b2
      ∧ b2.count = b.count + 2
      ∧ b2.stored = b.stored ++ [slot (h, n), slot (h, n)]
      ∧ ∀ ents : List (Option Handler × CStr), b.HoldsNamed ents →
          (∀ p ∈ ents, p.2 = n → p.1 ≠ none) →
          ∃ before after, b.Trigger (some n) = .ok (b, before)
            ∧ b2.Trigger (some n) = .ok (b2, after)
            ∧ after = before ++ [⟨h, some n⟩, ⟨h, some n⟩]
            ∧ after.count ⟨h, some n⟩ = before.count ⟨h, some n⟩ + 2 := by
  obtain ⟨b1, hs1, hc1, hcap1, hlen1, hst1⟩ :=
    subscribe_append b h0 hlen (by omega) (some n) (some h)
  obtain ⟨b2, hs2, hc2, _, _, hst2⟩ :=
    subscribe_append b1 (by omega) hlen1 (by omega) (some n) (some h)
  refine ⟨b1, b2, hs1, hs2, by omega, ?_, ?_⟩
  · rw [hst2, hst1]
    simp [slot]
  · intro ents hb hh
    have hfree0 : b.count < b.capacity := by omega
    obtain ⟨c1, hs1n, _, hcap1n, hlen1n, _, hn1⟩ :=
      subscribe_named b ents hb hlen hfree0 n (some h)
    rw [hs1] at hs1n
    injection hs1n with hs1n
    subst hs1n
    obtain ⟨c2, hs2n, _, _, _, _, hn2⟩ :=
      subscribe_named b1 _ hn1 hlen1 (by omega) n (some h)
    rw [hs2] at hs2n
    injection hs2n with hs2n
    subst hs2n
    have hh2 : ∀ p ∈ ents ++ [(some h, n)] ++ [(some h, n)], p.2 = n → p.1 ≠ none := by
      intro p hp hpe
      simp only [List.mem_append, List.mem_singleton] at hp
      rcases hp with (hp | hp) | hp
      · exact hh p hp hpe
      · rw [hp]; simp
      · rw [hp]; simp
    have hd : dispatchNamed (ents ++ [(some h, n)] ++ [(some h, n)]) n
        = dispatchNamed ents n ++ [⟨h, some n⟩, ⟨h, some n⟩] := by
      rw [dispatchNamed_append, dispatchNamed_append]
      simp [dispatchNamed]
    refine ⟨dispatchNamed ents n, _, trigger_named b ents n hb hh,
      trigger_named b2 _ n hn2 hh2, hd, ?_⟩
    rw [hd, List.count_append]
    simp

/-- C14 amended, at a bus of capacity 3 that holds one entry named `"hover"` with a null
handler, for handler 1 and name `"click"`. -/
theorem C14_no_duplicate_detection_witness :
    (0 : Int) ≤ (⟨[entry (none, hover), none, none], 1, 3⟩ : EventBus).count
      ∧ (⟨[entry (none, hover), none, none], 1, 3⟩ : EventBus).subscribers.length
          = (⟨[entry (none, hover), none, none], 1, 3⟩ : EventBus).capacity.toNat
      ∧ (⟨[entry (none, hover), none, none], 1, 3⟩ : EventBus).count + 2
          ≤ (⟨[entry (none, hover), none, none], 1, 3⟩ : EventBus).capacity
      ∧ ∃ b1 b2,
          (⟨[entry (none, hover), none, none], 1, 3⟩ : EventBus).Subscribe (some click) (some 1)
            = .ok b1
          ∧ b1.Subscribe (some click) (some 1) = .ok b2
          ∧ b2.count = 3
          ∧ ∃ before after,
              (⟨[entry (none, hover), none, none], 1, 3⟩ : EventBus).Trigger (some click)
                = .ok (⟨[entry (none, hover), none, none], 1, 3⟩, before)
              ∧ b2.Trigger (some click) = .ok (b2, after)
              ∧ after = before ++ [⟨1, some click⟩, ⟨1, some click⟩]
              ∧ after.count ⟨1, some click⟩ = before.count ⟨1, some click⟩ + 2 :=
  have h := C14_no_duplicate_detection ⟨[entry (none, hover), none, none], 1, 3⟩ click 1
    (by decide) (by decide) (by decide)
  ⟨by decide, by decide, by decide, h.choose, h.choose_spec.choose,
    h.choose_spec.choose_spec.1, h.choose_spec.choose_spec.2.1,
    h.choose_spec.choose_spec.2.2.1,
    h.choose_spec.choose_spec.2.2.2.2 [(none, hover)] (by decide) (by decide)⟩

/-! ### C15 -/

theorem cond_clamp_bounds (v lo hi : ℚ) (hle : lo ≤ hi) :
    lo ≤ (if v < lo then lo else (if v > hi then hi else v))
      ∧ (if v < lo then lo else (if v > hi then hi else v)) ≤ hi := by
  by_cases h1 : v < lo
  · rw [if_pos h1]
    exact ⟨le_refl _, hle⟩
  · rw [if_neg h1]
    by_cases h2 : v > hi
    · rw [if_pos h2]
      exact ⟨hle, le_refl _⟩
    · rw [if_neg h2]
      exact ⟨not_lt.mp h1, not_lt.mp h2⟩

theorem cond_clamp_fixed (v lo hi : ℚ) (h1 : lo ≤ v) (h2 : v ≤ hi) :
    (if v < lo then lo else (if v > hi then hi else v)) = v := by
  rw [if_neg (not_lt.mpr h1), if_neg (not_lt.mpr h2)]

theorem shrunkMax_fields :
    Binary32.shrunkMaxElement.width = .fin 40 ∧ Binary32.shrunkMaxElement.height = .fin 40
      ∧ Binary32.shrunkMaxElement.width_min = .fin 1
      ∧ Binary32.shrunkMaxElement.height_min = .fin 1
      ∧ Binary32.shrunkMaxElement.width_max = .fin 20
      ∧ Binary32.shrunkMaxElement.height_max = .fin 20 := by
  refine ⟨?_, ?_, rfl, rfl, rfl, rfl⟩
  · norm_num [Binary32.shrunkMaxElement, Binary32.UI_2D_Element.SetMaxSize,
      Binary32.UI_2D_Element.SetSize, Binary32.UI_2D_Element.init, F32.lt, F32.gt]
  · norm_num [Binary32.shrunkMaxElement, Binary32.UI_2D_Element.SetMaxSize,
      Binary32.UI_2D_Element.SetSize, Binary32.UI_2D_Element.init, F32.lt, F32.gt]

/-- C15 as stated fails in its last part: the next `SetSize` call need not bring the size
back inside the bounds. After `SetSize(40, 40)` and `SetMaxSize(20, 20)` on the default
element, `SetSize(NaN, NaN)` stores NaN as width and height (both comparisons of the clamp
are false on NaN), and NaN is neither `>=` the minimum nor `<=` the maximum. -/
theorem C15_counterexample :
    (Binary32.shrunkMaxElement.SetSize .nan .nan).width = .nan
      ∧ (Binary32.shrunkMaxElement.SetSize .nan .nan).height = .nan
      ∧ F32.le (Binary32.shrunkMaxElement.SetSize .nan .nan).width_min
          (Binary32.shrunkMaxElement.SetSize .nan .nan).width = false
      ∧ F32.le (Binary32.shrunkMaxElement.SetSize .nan .nan).width
          (Binary32.shrunkMaxElement.SetSize .nan .nan).width_max = false
      ∧ F32.le (Binary32.shrunkMaxElement.SetSize .nan .nan).height_min
          (Binary32.shrunkMaxElement.SetSize .nan .nan).height = false
      ∧ F32.le (Binary32.shrunkMaxElement.SetSize .nan .nan).height
          (Binary32.shrunkMaxElement.SetSize .nan .nan).height_max = false := by
  have hw : (Binary32.shrunkMaxElement.SetSize .nan .nan).width = .nan := by
    simp [Binary32.UI_2D_Element.SetSize, F32.lt, F32.gt]
  have hh : (Binary32.shrunkMaxElement.SetSize .nan .nan).height = .nan := by
    simp [Binary32.UI_2D_Element.SetSize, F32.lt, F32.gt]
  refine ⟨hw, hh, ?_, ?_, ?_, ?_⟩
  · rw [hw]; cases (Binary32.shrunkMaxElement.SetSize .nan .nan).width_min <;> rfl
  · rw [hw]; rfl
  · rw [hh]; cases (Binary32.shrunkMaxElement.SetSize .nan .nan).height_min <;> rfl
  · rw [hh]; rfl

/-- C15, amended: `SetMinSize(w, h)` changes only `width_min` and `height_min`, and
`SetMaxSize(w, h)` only `width_max` and `height_max`; the stored width and height stay as
they were. From the default element, `SetSize(40, 40)` then `SetMaxSize(20, 20)` leave the
stored size (40, 40) above the maximum (20, 20), and any following `SetSize` call whose
arguments are not NaN stores a size inside the bounds again. -/
theorem C15_lazy_reclamp (e : Binary32.UI_2D_Element) (w h : F32) :
    e.SetMinSize w h = { e with width_min := w, height_min := h }
      ∧ e.SetMaxSize w h = { e with width_max := w, height_max := h }
      ∧ (e.SetMinSize w h).width = e.width ∧ (e.SetMinSize w h).height = e.height
      ∧ (e.SetMaxSize w h).width = e.width ∧ (e.SetMaxSize w h).height = e.height
      ∧ Binary32.shrunkMaxElement
          = (Binary32.UI_2D_Element.init.SetSize (.fin 40) (.fin 40)).SetMaxSize
              (.fin 20) (.fin 20)
      ∧ Binary32.shrunkMaxElement.width = .fin 40
      ∧ Binary32.shrunkMaxElement.height = .fin 40
      ∧ Binary32.shrunkMaxElement.width_max = .fin 20
      ∧ Binary32.shrunkMaxElement.height_max = .fin 20
      ∧ F32.lt Binary32.shrunkMaxElement.width_max Binary32.shrunkMaxElement.width = true
      ∧ F32.lt Binary32.shrunkMaxElement.height_max Binary32.shrunkMaxElement.height = true
      ∧ (∀ w1 h1 : F32, w1 ≠ .nan → h1 ≠ .nan →
          F32.le (Binary32.shrunkMaxElement.SetSize w1 h1).width_min
              (Binary32.shrunkMaxElement.SetSize w1 h1).width = true
            ∧ F32.le (Binary32.shrunkMaxElement.SetSize w1 h1).width
                (Binary32.shrunkMaxElement.SetSize w1 h1).width_max = true
            ∧ F32.le (Binary32.shrunkMaxElement.SetSize w1 h1).height_min
                (Binary32.shrunkMaxElement.SetSize w1 h1).height = true
            ∧ F32.le (Binary32.shrunkMaxElement.SetSize w1 h1).height
                (Binary32.shrunkMaxElement.SetSize w1 h1).height_max = true) := by
  obtain ⟨hw, hh, hwmin, hhmin, hwmax, hhmax⟩ := shrunkMax_fields
  refine ⟨rfl, rfl, rfl, rfl, rfl, rfl, rfl, hw, hh, hwmax, hhmax, ?_, ?_, ?_⟩
  · rw [hw, hwmax]; norm_num [F32.lt]
  · rw [hh, hhmax]; norm_num [F32.lt]
  · intro w1 h1 hw1 hh1
    have kw := f32_clamp_bounds w1 Binary32.shrunkMaxElement.width_min
      Binary32.shrunkMaxElement.width_max hw1 (by rw [hwmin, hwmax]; simp [F32.le])
    have kh := f32_clamp_bounds h1 Binary32.shrunkMaxElement.height_min
      Binary32.shrunkMaxElement.height_max hh1 (by rw [hhmin, hhmax]; simp [F32.le])
    exact ⟨kw.1, kw.2, kh.1, kh.2⟩

/-! ### C16 -/

/-- C16: `SetVisible(b)` stores `b` in `visible` and changes no other field, `SetAvailable(b)`
stores `b` in `available` and changes no other field, `SetPosition(x, y)` stores `(x, y)`
for any values and changes no other field, and `SetSize` changes only width and height.
Every combination of the two flags is reached from the default element. -/
theorem C16_simple_setters (e : UI_2D_Element) :
    (∀ b : Bool, e.SetVisible b = { e with isVisible := b })
      ∧ (∀ b : Bool, (e.SetVisible b).isAvailable = e.isAvailable)
      ∧ (∀ b : Bool, e.SetAvailable b = { e with isAvailable := b })
      ∧ (∀ b : Bool, (e.SetAvailable b).isVisible = e.isVisible)
      ∧ (∀ x y : ℚ, e.SetPosition x y = { e with x := x, y := y })
      ∧ (∀ w h : ℚ, e.SetSize w h
          = { e with width := (e.SetSize w h).width, height := (e.SetSize w h).height })
      ∧ (∀ v a : Bool, ∃ ops : List Setter,
          (UI_2D_Element.init.run ops).isVisible = v
            ∧ (UI_2D_Element.init.run ops).isAvailable = a) := by
  refine ⟨fun _ => rfl, fun _ => rfl, fun _ => rfl, fun _ => rfl, fun _ _ => rfl,
    fun _ _ => rfl, ?_⟩
  intro v a
  exact ⟨[Setter.SetVisible v, Setter.SetAvailable a], rfl, rfl⟩

/-! ### C17 -/

/-- C17: whenever `Trigger(n)` returns, the bus it leaves is the bus it was called on (same
count, capacity and stored subscriptions), and a second `Trigger(n)` returns the same
sequence of calls; on a bus that holds subscriptions `subs`, `Trigger(n)` does return. -/
theorem C17_trigger_read_only (b : EventBus) :
    (∀ (n : Option CStr) (b1 : EventBus) (calls : List Call),
        b.Trigger n = .ok (b1, calls) →
          b1.count = b.count ∧ b1.capacity = b.capacity ∧ b1.stored = b.stored ∧ b1 = b
            ∧ b1.Trigger n = .ok (b1, calls))
      ∧ (∀ (subs : List (Handler × CStr)) (n : CStr), b.Holds subs →
          ∃ b1 calls, b.Trigger (some n) = .ok (b1, calls)
            ∧ b1.Trigger (some n) = .ok (b1, calls) ∧ b1 = b) := by
  constructor
  · intro n b1 calls ht
    have hb := trigger_state b b1 n calls ht
    subst hb
    exact ⟨rfl, rfl, rfl, rfl, ht⟩
  · intro subs n hb
    exact ⟨b, dispatch subs n, trigger_holds b subs n hb, trigger_holds b subs n hb, rfl⟩

/-- C17, at a bus holding two subscriptions. -/
theorem C17_trigger_read_only_witness :
    (⟨[slot (1, click), slot (2, hover)], 2, 2⟩ : EventBus).Holds [(1, click), (2, hover)]
      ∧ ∃ b1 calls,
          (⟨[slot (1, click), slot (2, hover)], 2, 2⟩ : EventBus).Trigger (some click)
            = .ok (b1, calls)
          ∧ b1.Trigger (some click) = .ok (b1, calls)
          ∧ b1 = ⟨[slot (1, click), slot (2, hover)], 2, 2⟩ :=
  ⟨by decide,
    (C17_trigger_read_only ⟨[slot (1, click), slot (2, hover)], 2, 2⟩).2
      [(1, click), (2, hover)] click (by decide)⟩

/-! ### C18 -/

/-- C18: when `width_min ≤ width_max` and `height_min ≤ height_max`, `SetSize(w, h)` followed
by `SetSize` with the width and height just stored leaves the element as it was after the
first call. With crossed bounds this fails: on the element with min (10, 10) and max (5, 5),
`SetSize(0, 0)` stores width 10, and `SetSize` with the stored size stores width 5. -/
theorem C18_setsize_projection :
    (∀ (e : UI_2D_Element) (w h : ℚ), e.width_min ≤ e.width_max → e.height_min ≤ e.height_max →
        (e.SetSize w h).SetSize (e.SetSize w h).width (e.SetSize w h).height = e.SetSize w h)
      ∧ (crossedBoundsElement.width_min = 10 ∧ crossedBoundsElement.width_max = 5
          ∧ crossedBoundsElement.width_max < crossedBoundsElement.width_min
          ∧ (crossedBoundsElement.SetSize 0 0).width = 10
          ∧ ((crossedBoundsElement.SetSize 0 0).SetSize (crossedBoundsElement.SetSize 0 0).width
                (crossedBoundsElement.SetSize 0 0).height).width = 5) := by
  constructor
  · intro e w h hw hh
    have kw := cond_clamp_bounds w e.width_min e.width_max hw
    have kh := cond_clamp_bounds h e.height_min e.height_max hh
    have fw := cond_clamp_fixed _ e.width_min e.width_max kw.1 kw.2
    have fh := cond_clamp_fixed _ e.height_min e.height_max kh.1 kh.2
    show ({ e with
      width := if (e.SetSize w h).width < e.width_min then e.width_min
        else (if (e.SetSize w h).width > e.width_max then e.width_max else (e.SetSize w h).width),
      height := if (e.SetSize w h).height < e.height_min then e.height_min
        else (if (e.SetSize w h).height > e.height_max then e.height_max
          else (e.SetSize w h).height) } : UI_2D_Element) = e.SetSize w h
    have fw1 : (if (e.SetSize w h).width < e.width_min then e.width_min
        else (if (e.SetSize w h).width > e.width_max then e.width_max
          else (e.SetSize w h).width)) = (e.SetSize w h).width := fw
    have fh1 : (if (e.SetSize w h).height < e.height_min then e.height_min
        else (if (e.SetSize w h).height > e.height_max then e.height_max
          else (e.SetSize w h).height)) = (e.SetSize w h).height := fh
    rw [fw1, fh1]
    rfl
  · norm_num [crossedBoundsElement, UI_2D_Element.init, UI_2D_Element.SetMinSize,
      UI_2D_Element.SetMaxSize, UI_2D_Element.SetSize]

/-- C18, at the default element with `SetSize(5, 200000)`. -/
theorem C18_setsize_projection_witness :
    UI_2D_Element.init.width_min ≤ UI_2D_Element.init.width_max
      ∧ UI_2D_Element.init.height_min ≤ UI_2D_Element.init.height_max
      ∧ (UI_2D_Element.init.SetSize 5 200000).SetSize (UI_2D_Element.init.SetSize 5 200000).width
          (UI_2D_Element.init.SetSize 5 200000).height = UI_2D_Element.init.SetSize 5 200000 :=
  ⟨by norm_num [UI_2D_Element.init], by norm_num [UI_2D_Element.init],
    C18_setsize_projection.1 UI_2D_Element.init 5 200000
      (by norm_num [UI_2D_Element.init]) (by norm_num [UI_2D_Element.init])⟩

/-! ### C19 -/

theorem unbounded_fields :
    Binary32.unboundedElement.width_min = .fin 1
      ∧ Binary32.unboundedElement.width_max = .pinf
      ∧ Binary32.unboundedElement.height_min = .fin 1
      ∧ Binary32.unboundedElement.height_max = .pinf
      ∧ Binary32.unboundedElement.x = .ninf ∧ Binary32.unboundedElement.y = .fin 0
      ∧ Binary32.unboundedElement.isVisible = true
      ∧ Binary32.unboundedElement.isAvailable = true :=
  ⟨rfl, rfl, rfl, rfl, rfl, rfl, rfl, rfl⟩

/-- C19 as stated fails in its consequence for hit-testing. On the default element after
`SetMaxSize(+inf, +inf)` and `SetPosition(-inf, 0)` the bounds are consistent and
`5 <= +inf`, yet the point `(-inf, 0)` is hit after `SetSize(5, 5)` and not after
`SetSize(+inf, 5)`: there `x + width` is `-inf + inf`, a NaN. -/
theorem C19_counterexample :
    F32.le Binary32.unboundedElement.width_min Binary32.unboundedElement.width_max = true
      ∧ F32.le Binary32.unboundedElement.height_min Binary32.unboundedElement.height_max = true
      ∧ F32.le (.fin 5) .pinf = true ∧ F32.le (.fin 5) (.fin 5) = true
      ∧ (Binary32.unboundedElement.SetSize (.fin 5) (.fin 5)).HitTest .ninf (.fin 0) = true
      ∧ (Binary32.unboundedElement.SetSize .pinf (.fin 5)).HitTest .ninf (.fin 0) = false := by
  obtain ⟨hwmin, hwmax, hhmin, hhmax, hx, hy, hv, ha⟩ := unbounded_fields
  have hfive : F32.round (0 + 5) = .fin 5 := by
    rw [f32_round_eval _ 2 10485760 (by norm_num) (by norm_num) (by norm_num) (by norm_num)
      (by norm_num) (by norm_num) (by norm_num)]
    norm_num
  refine ⟨by rw [hwmin, hwmax]; rfl, by rw [hhmin, hhmax]; rfl, rfl, by simp [F32.le], ?_, ?_⟩
  · have hw : (Binary32.unboundedElement.SetSize (.fin 5) (.fin 5)).width = .fin 5 := by
      simp [Binary32.UI_2D_Element.SetSize, hwmin, hwmax, F32.lt, F32.gt]
    have hh : (Binary32.unboundedElement.SetSize (.fin 5) (.fin 5)).height = .fin 5 := by
      simp [Binary32.UI_2D_Element.SetSize, hhmin, hhmax, F32.lt, F32.gt]
    have hx1 : (Binary32.unboundedElement.SetSize (.fin 5) (.fin 5)).x = .ninf := hx
    have hy1 : (Binary32.unboundedElement.SetSize (.fin 5) (.fin 5)).y = .fin 0 := hy
    have hv1 : (Binary32.unboundedElement.SetSize (.fin 5) (.fin 5)).isVisible = true := hv
    have ha1 : (Binary32.unboundedElement.SetSize (.fin 5) (.fin 5)).isAvailable = true := ha
    simp only [Binary32.UI_2D_Element.HitTest, hw, hh, hx1, hy1, hv1, ha1, F32.add, hfive,
      F32.ge, F32.le]
    norm_num
  · have hw : (Binary32.unboundedElement.SetSize .pinf (.fin 5)).width = .pinf := by
      simp [Binary32.UI_2D_Element.SetSize, hwmin, hwmax, F32.lt, F32.gt]
    have hx1 : (Binary32.unboundedElement.SetSize .pinf (.fin 5)).x = .ninf := hx
    simp only [Binary32.UI_2D_Element.HitTest, hw, hx1, F32.add, F32.le]
    simp

/-- C19, amended: when `width_min <= width_max`, `height_min <= height_max`, `w1 <= w2` and
`h1 <= h2` hold as float comparisons: the width stored by `SetSize(w1, h)` is `<=` the
width stored by `SetSize(w2, h)`, and likewise the heights; and every point that `HitTest`
accepts after `SetSize(w1, h1)` it also accepts after `SetSize(w2, h2)`, provided that
after `SetSize(w2, h2)` neither `x + width` nor `y + height` is NaN, which is the case
whenever the position `(x, y)` is finite. -/
theorem C19_setsize_monotone (e : Binary32.UI_2D_Element) (w1 w2 h1 h2 : F32)
    (hw : F32.le e.width_min e.width_max = true) (hh : F32.le e.height_min e.height_max = true)
    (hw12 : F32.le w1 w2 = true) (hh12 : F32.le h1 h2 = true) :
    (∀ h : F32, F32.le (e.SetSize w1 h).width (e.SetSize w2 h).width = true)
      ∧ (∀ w : F32, F32.le (e.SetSize w h1).height (e.SetSize w h2).height = true)
      ∧ (∀ px py : F32,
          F32.add (e.SetSize w2 h2).x (e.SetSize w2 h2).width ≠ .nan →
          F32.add (e.SetSize w2 h2).y (e.SetSize w2 h2).height ≠ .nan →
          (e.SetSize w1 h1).HitTest px py = true → (e.SetSize w2 h2).HitTest px py = true)
      ∧ (∀ (x y : ℚ) (px py : F32), e.x = .fin x → e.y = .fin y →
          (e.SetSize w1 h1).HitTest px py = true → (e.SetSize w2 h2).HitTest px py = true) := by
  have mw := f32_clamp_mono w1 w2 e.width_min e.width_max hw hw12
  have mh := f32_clamp_mono h1 h2 e.height_min e.height_max hh hh12
  have mw1 : F32.le (e.SetSize w1 h1).width (e.SetSize w2 h2).width = true := mw
  have mh1 : F32.le (e.SetSize w1 h1).height (e.SetSize w2 h2).height = true := mh
  have key : ∀ px py : F32,
      F32.add (e.SetSize w2 h2).x (e.SetSize w2 h2).width ≠ .nan →
      F32.add (e.SetSize w2 h2).y (e.SetSize w2 h2).height ≠ .nan →
      (e.SetSize w1 h1).HitTest px py = true → (e.SetSize w2 h2).HitTest px py = true := by
    intro px py hnx hny hhit
    have hx : (e.SetSize w1 h1).x = (e.SetSize w2 h2).x := rfl
    have hy : (e.SetSize w1 h1).y = (e.SetSize w2 h2).y := rfl
    have hv : (e.SetSize w1 h1).isVisible = (e.SetSize w2 h2).isVisible := rfl
    have ha : (e.SetSize w1 h1).isAvailable = (e.SetSize w2 h2).isAvailable := rfl
    simp only [Binary32.UI_2D_Element.HitTest, Bool.and_eq_true] at hhit ⊢
    obtain ⟨⟨⟨⟨⟨h1v, h1a⟩, h1x⟩, h1w⟩, h1y⟩, h1h⟩ := hhit
    rw [hx] at h1x h1w
    rw [hy] at h1y h1h
    rw [hv] at h1v
    rw [ha] at h1a
    have hsx := f32_add_mono _ _ _ mw1 (f32_le_ne_nan _ _ h1w).2 hnx
    have hsy := f32_add_mono _ _ _ mh1 (f32_le_ne_nan _ _ h1h).2 hny
    exact ⟨⟨⟨⟨⟨h1v, h1a⟩, h1x⟩, f32_le_trans _ _ _ h1w hsx⟩, h1y⟩, f32_le_trans _ _ _ h1h hsy⟩
  refine ⟨fun _ => mw, fun _ => mh, key, ?_⟩
  intro x y px py hx hy hhit
  have bw := f32_clamp_bounds w2 e.width_min e.width_max (f32_le_ne_nan _ _ hw12).2 hw
  have bh := f32_clamp_bounds h2 e.height_min e.height_max (f32_le_ne_nan _ _ hh12).2 hh
  have nw : (e.SetSize w2 h2).width ≠ .nan := (f32_le_ne_nan _ _ bw.1).2
  have nh : (e.SetSize w2 h2).height ≠ .nan := (f32_le_ne_nan _ _ bh.1).2
  have hx2 : (e.SetSize w2 h2).x = .fin x := hx
  have hy2 : (e.SetSize w2 h2).y = .fin y := hy
  apply key px py _ _ hhit
  · rw [hx2]
    cases hwd : (e.SetSize w2 h2).width with
    | nan => exact absurd hwd nw
    | ninf => simp [F32.add]
    | pinf => simp [F32.add]
    | fin q => exact f32_round_ne_nan _
  · rw [hy2]
    cases hhd : (e.SetSize w2 h2).height with
    | nan => exact absurd hhd nh
    | ninf => simp [F32.add]
    | pinf => simp [F32.add]
    | fin q => exact f32_round_ne_nan _

/-- C19 amended, at the default element: widths 5 and 8, heights 5 and 9. -/
theorem C19_setsize_monotone_witness :
    F32.le Binary32.UI_2D_Element.init.width_min Binary32.UI_2D_Element.init.width_max = true
      ∧ F32.le Binary32.UI_2D_Element.init.height_min Binary32.UI_2D_Element.init.height_max
          = true
      ∧ F32.le (.fin 5) (.fin 8) = true ∧ F32.le (.fin 5) (.fin 9) = true
      ∧ F32.le (Binary32.UI_2D_Element.init.SetSize (.fin 5) (.fin 5)).width
          (Binary32.UI_2D_Element.init.SetSize (.fin 8) (.fin 5)).width = true
      ∧ F32.le (Binary32.UI_2D_Element.init.SetSize (.fin 5) (.fin 5)).height
          (Binary32.UI_2D_Element.init.SetSize (.fin 5) (.fin 9)).height = true :=
  have hb : F32.le (.fin 1) (.fin 100000) = true := by norm_num [F32.le]
  have h58 : F32.le (.fin 5) (.fin 8) = true := by norm_num [F32.le]
  have h59 : F32.le (.fin 5) (.fin 9) = true := by norm_num [F32.le]
  have h := C19_setsize_monotone Binary32.UI_2D_Element.init (.fin 5) (.fin 8) (.fin 5) (.fin 9)
    hb hb h58 h59
  ⟨hb, hb, h58, h59, h.1 (.fin 5), h.2.1 (.fin 5)⟩

end UICore
